import Mathlib

/-!
Verification of the t2d-kit document model, compatibility matrix,
consistency engine and file-based state store.

The Python source is embedded shallowly: strings are lists of characters,
Python dictionaries that hold JSON-serialisable data become the `JsonVal`
inductive, pydantic validators become `Except`-valued functions, and the
state directory becomes an explicit map from file name to file content.
-/

namespace T2D

/-- Text is modelled as a list of characters (Python `str`). -/
abbrev Str := List Char

/-- Python `str.strip()` whitespace predicate (ASCII subset: space, tab,
newline, carriage return, vertical tab, form feed). -/
def isPyWS (c : Char) : Bool :=
  c.toNat = 32 || c.toNat = 9 || c.toNat = 10 || c.toNat = 13 ||
  c.toNat = 11 || c.toNat = 12

/-- Python `str.strip()`: drop whitespace from both ends. -/
def pyStrip (s : Str) : Str :=
  List.rdropWhile isPyWS (List.dropWhile isPyWS s)

/-- ASCII uppercase letter. -/
def isUpperAlpha (c : Char) : Bool := 65 ≤ c.toNat && c.toNat ≤ 90

/-- ASCII lowercase letter. -/
def isLowerAlpha (c : Char) : Bool := 97 ≤ c.toNat && c.toNat ≤ 122

/-- ASCII decimal digit. -/
def isDigitChar (c : Char) : Bool := 48 ≤ c.toNat && c.toNat ≤ 57

/-- Python `str.lower()` on one character (ASCII letters). -/
def lowerChar (c : Char) : Char :=
  if isUpperAlpha c then Char.ofNat (c.toNat + 32) else c

/-- Python `str.lower()` (ASCII letters). -/
def pyLower (s : Str) : Str := s.map lowerChar

/-- Python `str.replace(" ", "_")` on one character. -/
def underscoreChar (c : Char) : Char := if c = ' ' then '_' else c

/-- Python `str.replace(" ", "_")`. -/
def pyUnderscore (s : Str) : Str := s.map underscoreChar

/-- Split a list at every occurrence of a separator character. -/
def splitOnChar (sep : Char) (s : Str) : List Str :=
  match s with
  | [] => [[]]
  | c :: rest =>
    let r := splitOnChar sep rest
    if c = sep then [] :: r
    else
      match r with
      | [] => [[c]]
      | h :: t => (c :: h) :: t

/-- Python `str.split()` with no argument: split on whitespace runs,
discarding empty pieces. -/
def pySplitWS (s : Str) : List Str :=
  ((splitOnChar ' ' ((s.map (fun c => if isPyWS c then ' ' else c)))).filter
    (fun p => p ≠ []))

/-- Last index of a character in a string (Python `str.rfind`), `none` when
the character does not occur. -/
def strRfind (c : Char) (s : Str) : Option Nat :=
  match (s.reverse).indexOf? c with
  | none => none
  | some k => some (s.length - 1 - k)

/-- `pathlib.PurePath.name`: the final path component ("`.`" and empty
components are dropped by pathlib's parser, "`..`" components are kept). -/
def pathName (p : Str) : Str :=
  (((splitOnChar '/' p).filter (fun c => c ≠ [] ∧ c ≠ ['.'])).getLast?).getD []

/-- `pathlib.PurePath.suffix`: the extension of the final component; empty
when there is no dot, the only dot is leading, or the dot is last. -/
def pySuffix (p : Str) : Str :=
  let name := pathName p
  match strRfind '.' name with
  | none => []
  | some i => if 0 < i ∧ i < name.length - 1 then name.drop i else []

/-- JSON-serialisable values (the payloads the Python code stores with
`json.dumps` / reads with `json.loads`; numbers are modelled as integers). -/
inductive JsonVal where
  | null : JsonVal
  | bool : Bool → JsonVal
  | num : Int → JsonVal
  | str : Str → JsonVal
  | arr : List JsonVal → JsonVal
  | obj : List (Str × JsonVal) → JsonVal

mutual

/-- Decidable equality on JSON values. -/
def decEqVal : (a b : JsonVal) → Decidable (a = b)
  | .null, .null => isTrue rfl
  | .bool a, .bool b =>
      match inferInstanceAs (Decidable (a = b)) with
      | isTrue h => isTrue (by rw [h])
      | isFalse h => isFalse (fun hx => h (JsonVal.bool.inj hx))
  | .num a, .num b =>
      match inferInstanceAs (Decidable (a = b)) with
      | isTrue h => isTrue (by rw [h])
      | isFalse h => isFalse (fun hx => h (JsonVal.num.inj hx))
  | .str a, .str b =>
      match inferInstanceAs (Decidable (a = b)) with
      | isTrue h => isTrue (by rw [h])
      | isFalse h => isFalse (fun hx => h (JsonVal.str.inj hx))
  | .arr a, .arr b =>
      match decEqArr a b with
      | isTrue h => isTrue (by rw [h])
      | isFalse h => isFalse (fun hx => h (JsonVal.arr.inj hx))
  | .obj a, .obj b =>
      match decEqObj a b with
      | isTrue h => isTrue (by rw [h])
      | isFalse h => isFalse (fun hx => h (JsonVal.obj.inj hx))
  | .null, .bool _ | .null, .num _ | .null, .str _ | .null, .arr _
  | .null, .obj _ | .bool _, .null | .bool _, .num _ | .bool _, .str _
  | .bool _, .arr _ | .bool _, .obj _ | .num _, .null | .num _, .bool _
  | .num _, .str _ | .num _, .arr _ | .num _, .obj _ | .str _, .null
  | .str _, .bool _ | .str _, .num _ | .str _, .arr _ | .str _, .obj _
  | .arr _, .null | .arr _, .bool _ | .arr _, .num _ | .arr _, .str _
  | .arr _, .obj _ | .obj _, .null | .obj _, .bool _ | .obj _, .num _
  | .obj _, .str _ | .obj _, .arr _ => isFalse (by intro h; cases h)

/-- Decidable equality on JSON value lists. -/
def decEqArr : (a b : List JsonVal) → Decidable (a = b)
  | [], [] => isTrue rfl
  | [], _ :: _ => isFalse (by intro h; cases h)
  | _ :: _, [] => isFalse (by intro h; cases h)
  | x :: xs, y :: ys =>
      match decEqVal x y, decEqArr xs ys with
      | isTrue h1, isTrue h2 => isTrue (by rw [h1, h2])
      | isFalse h1, _ => isFalse (by intro h; injection h with ha hb; exact h1 ha)
      | _, isFalse h2 => isFalse (by intro h; injection h with ha hb; exact h2 hb)

/-- Decidable equality on JSON object member lists. -/
def decEqObj : (a b : List (Str × JsonVal)) → Decidable (a = b)
  | [], [] => isTrue rfl
  | [], _ :: _ => isFalse (by intro h; cases h)
  | _ :: _, [] => isFalse (by intro h; cases h)
  | (k, v) :: xs, (l, w) :: ys =>
      match inferInstanceAs (Decidable (k = l)), decEqVal v w,
          decEqObj xs ys with
      | isTrue hk, isTrue hv, isTrue ht => isTrue (by rw [hk, hv, ht])
      | isFalse hk, _, _ =>
          isFalse (by
            intro h
            injection h with ha hb
            exact hk (congrArg Prod.fst ha))
      | _, isFalse hv, _ =>
          isFalse (by
            intro h
            injection h with ha hb
            exact hv (congrArg Prod.snd ha))
      | _, _, isFalse ht =>
          isFalse (by intro h; injection h with ha hb; exact ht hb)

end

instance : DecidableEq JsonVal := decEqVal

instance {ε α : Type} [DecidableEq ε] [DecidableEq α] :
    DecidableEq (Except ε α) := fun a b =>
  match a, b with
  | .ok x, .ok y =>
      if h : x = y then isTrue (by rw [h])
      else isFalse (fun hx => h (Except.ok.inj hx))
  | .error x, .error y =>
      if h : x = y then isTrue (by rw [h])
      else isFalse (fun hx => h (Except.error.inj hx))
  | .ok _, .error _ => isFalse (by intro h; cases h)
  | .error _, .ok _ => isFalse (by intro h; cases h)

/-! ## Enumerations from `models/base.py` -/

/-- `DiagramType` (base.py): every supported diagram category. -/
inductive DiagramType where
  | flowchart | sequence | «class» | state | erd | journey | gantt | pie
  | quadrant | requirement | gitgraph | mindmap | timeline | sankey
  | xy_chart | block | packet | architecture | kanban
  | c4_context | c4_container | c4_component | c4_deployment | c4_landscape
  | plantuml_usecase | plantuml_activity | plantuml_component
  | plantuml_deployment | plantuml_object | plantuml_package
  | plantuml_profile | plantuml_composite | plantuml_communication
  | plantuml_interaction | plantuml_timing | plantuml_archimate
  | plantuml_specification | plantuml_ditaa | plantuml_dot | plantuml_salt
  | plantuml_json | plantuml_yaml | plantuml_network | plantuml_wireframe
  | unknown
deriving DecidableEq

/-- `FrameworkType` (base.py): supported rendering frameworks. -/
inductive FrameworkType where
  | mermaid | d2 | plantuml | graphviz | auto
deriving DecidableEq

/-- `OutputFormat` (base.py): supported diagram output formats. -/
inductive OutputFormat where
  | svg | png | pdf | inline
deriving DecidableEq

/-! ## `models/diagram.py`: DiagramSpecification -/

/-- `DiagramSpecification` (diagram.py): one diagram job. The
framework-specific `options` blob is carried as raw JSON. -/
structure DiagramSpecification where
  id : Str
  type : DiagramType
  framework : Option FrameworkType := none
  agent : Str
  title : Str
  instructions : Str
  output_file : Str
  output_formats : List OutputFormat := []
  options : Option JsonVal := none
deriving DecidableEq

/-- Validation errors raised by `DiagramSpecification`. -/
inductive DiagramError where
  | fieldError (field : Str)
  | frameworkUndetermined
  | unsupportedType (framework : FrameworkType) (type : DiagramType)
  | unsupportedFormats (framework : FrameworkType) (formats : List OutputFormat)
deriving DecidableEq

/-- The `extension_to_framework` table inside
`auto_detect_framework_and_formats`. -/
def extensionToFramework (suffix : Str) : Option FrameworkType :=
  if suffix = ".d2".data then some .d2
  else if suffix = ".mmd".data then some .mermaid
  else if suffix = ".puml".data then some .plantuml
  else if suffix = ".gv".data then some .graphviz
  else if suffix = ".md".data then some .mermaid
  else none

/-- The `plantuml_types` set inside `_get_default_framework_for_type`. -/
def plantumlTypes : List DiagramType :=
  [.plantuml_usecase, .plantuml_activity, .plantuml_component,
   .plantuml_deployment, .plantuml_object, .plantuml_package,
   .plantuml_profile, .plantuml_composite, .plantuml_communication,
   .plantuml_interaction, .plantuml_timing, .plantuml_archimate,
   .plantuml_specification, .plantuml_ditaa, .plantuml_dot, .plantuml_salt,
   .plantuml_json, .plantuml_yaml, .plantuml_network, .plantuml_wireframe]

/-- The `type_mapping` table inside `_get_default_framework_for_type`. -/
def typeMapping (t : DiagramType) : Option FrameworkType :=
  match t with
  | .c4_context => some .d2
  | .c4_container => some .d2
  | .c4_component => some .d2
  | .c4_deployment => some .d2
  | .c4_landscape => some .d2
  | .architecture => some .d2
  | .flowchart => some .mermaid
  | .sequence => some .mermaid
  | .erd => some .mermaid
  | .gantt => some .mermaid
  | .state => some .mermaid
  | .«class» => some .mermaid
  | .pie => some .mermaid
  | .journey => some .mermaid
  | .quadrant => some .mermaid
  | .requirement => some .mermaid
  | .gitgraph => some .mermaid
  | .mindmap => some .mermaid
  | .timeline => some .mermaid
  | .sankey => some .mermaid
  | .xy_chart => some .mermaid
  | .block => some .mermaid
  | .packet => some .mermaid
  | .kanban => some .mermaid
  | _ => none

/-- `DiagramSpecification._get_default_framework_for_type`. -/
def getDefaultFrameworkForType (t : DiagramType) : FrameworkType :=
  if t ∈ plantumlTypes then .plantuml
  else (typeMapping t).getD .mermaid

/-- The `framework_defaults` table inside
`auto_detect_framework_and_formats` (looked up with default `[SVG]`). -/
def frameworkDefaults (fw : Option FrameworkType) : List OutputFormat :=
  match fw with
  | some .d2 => [.svg]
  | some .mermaid => [.svg]
  | some .plantuml => [.svg]
  | some .graphviz => [.svg]
  | _ => [.svg]

/-- `DiagramSpecification.auto_detect_framework_and_formats` (a
`mode="after"` model validator; it always succeeds). -/
def autoDetectFrameworkAndFormats (s : DiagramSpecification) :
    DiagramSpecification :=
  let s :=
    match s.framework with
    | some _ => s
    | none =>
        { s with
          framework :=
            some ((extensionToFramework (pySuffix s.output_file)).getD
              (getDefaultFrameworkForType s.type)) }
  if s.output_formats.isEmpty then
    { s with output_formats := frameworkDefaults s.framework }
  else s

/-- One framework's entry in the compatibility matrix. -/
structure FrameworkCapabilities where
  types : List DiagramType
  formats : List OutputFormat

/-- The `framework_capabilities` matrix inside
`validate_framework_compatibility`; frameworks without an entry
(graphviz, auto) map to `none`. -/
def frameworkCapabilities (fw : FrameworkType) : Option FrameworkCapabilities :=
  match fw with
  | .d2 =>
      some ⟨[.c4_context, .c4_container, .c4_component, .architecture,
             .flowchart],
            [.svg, .png, .pdf]⟩
  | .mermaid =>
      some ⟨[.sequence, .flowchart, .erd, .gantt, .state, .«class», .pie,
             .journey, .quadrant, .requirement, .gitgraph, .mindmap,
             .timeline, .sankey, .xy_chart, .block, .packet, .architecture,
             .kanban, .c4_context, .c4_container],
            [.svg, .png, .pdf]⟩
  | .plantuml =>
      some ⟨[.sequence, .«class», .state, .c4_context, .c4_container,
             .plantuml_usecase, .plantuml_activity, .plantuml_component,
             .plantuml_deployment, .plantuml_object, .plantuml_package,
             .plantuml_wireframe, .plantuml_network],
            [.svg, .png, .pdf]⟩
  | _ => none

/-- `frameworkSupportsType fw t` holds when the compatibility matrix lists
category `t` among `fw`'s supported categories. -/
def frameworkSupportsType (fw : FrameworkType) (t : DiagramType) : Bool :=
  match frameworkCapabilities fw with
  | some caps => t ∈ caps.types
  | none => false

/-- `DiagramSpecification.validate_framework_compatibility` (a
`mode="after"` model validator). -/
def validateFrameworkCompatibility (s : DiagramSpecification) :
    Except DiagramError DiagramSpecification :=
  match s.framework with
  | none => .error .frameworkUndetermined
  | some fw =>
    match frameworkCapabilities fw with
    | none => .ok s
    | some caps =>
      if s.type ∉ caps.types then .error (.unsupportedType fw s.type)
      else
        let unsupported := (s.output_formats.filter
          (fun f => f ∉ caps.formats)).dedup
        if unsupported ≠ [] then .error (.unsupportedFormats fw unsupported)
        else .ok s

/-- Character class of the `^[a-zA-Z0-9_-]+$` identifier pattern. -/
def isIdentChar (c : Char) : Bool :=
  isUpperAlpha c || isLowerAlpha c || isDigitChar c || c = '_' || c = '-'

/-- Character class of the `[a-z0-9-]` agent-name tail. -/
def isAgentTailChar (c : Char) : Bool :=
  isLowerAlpha c || isDigitChar c || c = '-'

/-- `id` field constraints: pattern `^[a-zA-Z0-9_-]+$`, length 1..100. -/
def idFieldOk (s : Str) : Bool :=
  s ≠ [] && s.all isIdentChar && s.length ≤ 100

/-- `agent` field pattern `^t2d-[a-z0-9-]+$`. -/
def agentFieldOk (s : Str) : Bool :=
  s.take 4 = "t2d-".data && s.drop 4 ≠ [] && (s.drop 4).all isAgentTailChar

/-- `NameField` constraints: length 1..255. -/
def nameFieldOk (s : Str) : Bool := s ≠ [] && s.length ≤ 255

/-- `PathField` constraints: length 1..500. -/
def pathFieldOk (s : Str) : Bool := s ≠ [] && s.length ≤ 500

/-- `InstructionsField` constraints (length 10..10000) plus the
`validate_instructions_length` field validator (at least 5 words). -/
def instructionsFieldOk (s : Str) : Bool :=
  10 ≤ s.length && s.length ≤ 10000 && 5 ≤ (pySplitWS s).length

/-- The `valid_extensions` set of `validate_output_file_extension`. -/
def validOutputExtensions : List Str :=
  [".d2".data, ".mmd".data, ".puml".data, ".gv".data, ".md".data]

/-- `output_file` validation: `PathField` constraints plus the
`validate_output_file_extension` field validator. -/
def outputFileFieldOk (s : Str) : Bool :=
  pathFieldOk s && pySuffix s ∈ validOutputExtensions

/-- Field-level stage of `DiagramSpecification` validation: pydantic first
strips every string field (`str_strip_whitespace`), then evaluates every
field constraint and field validator, accumulating one error per failing
field. -/
def diagramFieldStage (s : DiagramSpecification) :
    DiagramSpecification × List DiagramError :=
  let s := { s with
    id := pyStrip s.id, agent := pyStrip s.agent, title := pyStrip s.title,
    instructions := pyStrip s.instructions,
    output_file := pyStrip s.output_file }
  let errs :=
    (if idFieldOk s.id then [] else [DiagramError.fieldError "id".data]) ++
    (if agentFieldOk s.agent then []
     else [DiagramError.fieldError "agent".data]) ++
    (if nameFieldOk s.title then []
     else [DiagramError.fieldError "title".data]) ++
    (if instructionsFieldOk s.instructions then []
     else [DiagramError.fieldError "instructions".data]) ++
    (if outputFileFieldOk s.output_file then []
     else [DiagramError.fieldError "output_file".data])
  (s, errs)

/-- Full `DiagramSpecification` validation: field stage, then the two
`mode="after"` model validators in declaration order
(`auto_detect_framework_and_formats`, `validate_framework_compatibility`). -/
def validateDiagramSpecification (s : DiagramSpecification) :
    Except (List DiagramError) DiagramSpecification :=
  let (s, errs) := diagramFieldStage s
  if errs ≠ [] then .error errs
  else
    let s := autoDetectFrameworkAndFormats s
    match validateFrameworkCompatibility s with
    | .error e => .error [e]
    | .ok s => .ok s

/-- A concrete diagram job: category `pie`, no framework given, output path
with the `.gv` extension, so auto-detection resolves graphviz. -/
def gvPieSpec : DiagramSpecification :=
  { id := "d1".data, type := .pie, framework := none,
    agent := "t2d-d2-generator".data, title := "Chart".data,
    instructions := "draw a simple pie chart of sales".data,
    output_file := "out/chart.gv".data, output_formats := [] }

/-! ## `models/user_recipe.py`: UserRecipe and its sub-records -/

/-- `DiagramRequest` (user_recipe.py). -/
structure DiagramRequest where
  type : Str
  description : Option Str := none
  framework_preference : Option Str := none
deriving DecidableEq

/-- `DocumentationInstructions` (user_recipe.py); enum-valued fields hold
their value strings (`use_enum_values=True`). -/
structure DocumentationInstructions where
  style : Option Str := some "technical".data
  audience : Option Str := none
  sections : Option (List Str) := none
  detail_level : Option Str := some "detailed".data
  include_code_examples : Bool := false
  include_diagrams_inline : Bool := true
deriving DecidableEq

/-- `PresentationInstructions` (user_recipe.py). -/
structure PresentationInstructions where
  audience : Option Str := none
  max_slides : Option Int := none
  style : Option Str := some "technical".data
  include_speaker_notes : Bool := true
  emphasis_points : Option (List Str) := none
  time_limit : Option Int := none
deriving DecidableEq

/-- `UserInstructions` (user_recipe.py). -/
structure UserInstructions where
  diagrams : List DiagramRequest
  documentation : Option DocumentationInstructions := none
  presentation : Option PresentationInstructions := none
  focus_areas : Option (List Str) := none
  exclude : Option (List Str) := none
deriving DecidableEq

/-- `PRDContent` (user_recipe.py). -/
structure PRDContent where
  content : Option Str := none
  file_path : Option Str := none
  format : Option Str := some "markdown".data
  sections : Option (List Str) := none
deriving DecidableEq

/-- `Preferences` (user_recipe.py). -/
structure Preferences where
  default_framework : Option Str := none
  diagram_style : Option Str := none
  color_scheme : Option Str := none
  theme : Option Str := none
  custom_templates : Option (List (Str × Str)) := none
deriving DecidableEq

/-- `UserRecipe` (user_recipe.py); `metadata` is a free-form string-keyed
dictionary. -/
structure UserRecipe where
  name : Str
  version : Str := "1.0.0".data
  prd : PRDContent
  instructions : UserInstructions
  preferences : Option Preferences := none
  metadata : Option (List (Str × JsonVal)) := none
deriving DecidableEq

/-- Validation errors raised while validating a `UserRecipe`, one
constructor per raise site / constraint kind in user_recipe.py. -/
inductive RecipeError where
  | fieldError (field : Str)
  | sectionEmpty
  | pathTraversal
  | missingExtension
  | invalidFormat
  | invalidFramework
  | typePatternInvalid
  | duplicateDiagram (type : Str)
  | missingContentSource
  | bothContentSources
  | namePatternInvalid
  | noDiagrams
deriving DecidableEq

/-- Error list of a single-field validation outcome. -/
def errOf {α : Type} : Except RecipeError α → List RecipeError
  | .error e => [e]
  | .ok _ => []

/-- Error list of a sub-model validation outcome. -/
def errsOf {α : Type} : Except (List RecipeError) α → List RecipeError
  | .error e => e
  | .ok _ => []

/-- The `valid_frameworks` set of `validate_framework_preference`. -/
def validFrameworks : List Str :=
  ["d2".data, "mermaid".data, "plantuml".data, "graphviz".data,
   "auto".data]

/-- The `PRDFormat` enumeration values (base.py). -/
def prdFormats : List Str := ["markdown".data, "text".data, "html".data]

/-- The `DocStyle` enumeration values (base.py). -/
def docStyles : List Str :=
  ["technical".data, "business".data, "tutorial".data, "reference".data]

/-- The `DetailLevel` enumeration values (base.py). -/
def detailLevels : List Str :=
  ["high-level".data, "detailed".data, "comprehensive".data]

/-- The `PresentationStyle` enumeration values (base.py). -/
def presentationStyles : List Str :=
  ["executive".data, "technical".data, "sales".data, "workshop".data]

/-- Character class `[a-z0-9_]` of the normalized diagram-type pattern. -/
def isTypeChar (c : Char) : Bool :=
  isLowerAlpha c || isDigitChar c || c = '_'

/-- The regex `^[a-z][a-z0-9_]*$` of `validate_type_format`. -/
def matchesTypePattern : Str → Bool
  | [] => false
  | c :: rest => isLowerAlpha c && rest.all isTypeChar

/-- The regex `^[a-zA-Z][a-zA-Z0-9_-]*$` of `validate_name_format`. -/
def matchesNamePattern : Str → Bool
  | [] => false
  | c :: rest => (isUpperAlpha c || isLowerAlpha c) && rest.all isIdentChar

/-- The `VersionField` regex `^\d+\.\d+\.\d+$` (base.py). -/
def matchesVersionPattern (s : Str) : Bool :=
  match splitOnChar '.' s with
  | [a, b, c] =>
      a ≠ [] && a.all isDigitChar && b ≠ [] && b.all isDigitChar &&
      c ≠ [] && c.all isDigitChar
  | _ => false

/-- Python substring test (`pat in s`). -/
def listHasSub (pat : Str) : Str → Bool
  | [] => decide (pat = [])
  | c :: rest => List.isPrefixOf pat (c :: rest) || listHasSub pat rest

/-- `content` field: strip, then the `ContentField` 1MB bound. -/
def validateContentField (v : Option Str) : Except RecipeError (Option Str) :=
  match v with
  | none => .ok none
  | some c =>
      let c := pyStrip c
      if c.length ≤ 1048576 then .ok (some c)
      else .error (.fieldError "content".data)

/-- `file_path` field: strip, the `PathField` length bounds, then
`PRDContent.validate_file_path_exists` (no "`..`", must have an
extension). -/
def validateFilePathField (v : Option Str) :
    Except RecipeError (Option Str) :=
  match v with
  | none => .ok none
  | some p =>
      let p := pyStrip p
      if ¬ (pathFieldOk p = true) then .error (.fieldError "file_path".data)
      else if listHasSub "..".data p then .error .pathTraversal
      else if pySuffix p = [] then .error .missingExtension
      else .ok (some p)

/-- `format` field: `PRDFormat` enumeration parse. -/
def validateFormatField (v : Option Str) : Except RecipeError (Option Str) :=
  match v with
  | none => .ok none
  | some f => if f ∈ prdFormats then .ok (some f) else .error .invalidFormat

/-- `sections` field: strip elements, then `validate_sections_format`
(no blank section names, return re-stripped names). -/
def validateSectionsField (v : Option (List Str)) :
    Except RecipeError (Option (List Str)) :=
  match v with
  | none => .ok none
  | some l =>
      let l := l.map pyStrip
      if l.any (fun s => pyStrip s = []) then .error .sectionEmpty
      else .ok (some (l.map pyStrip))

/-- `PRDContent` validation: the four fields (errors accumulate), then the
`validate_content_source` model validator (exactly one of inline content
and file path). -/
def validatePRDContent (r : PRDContent) :
    Except (List RecipeError) PRDContent :=
  let c := validateContentField r.content
  let f := validateFilePathField r.file_path
  let fmt := validateFormatField r.format
  let secs := validateSectionsField r.sections
  match c, f, fmt, secs with
  | .ok c, .ok f, .ok fmt, .ok secs =>
      if c = none ∧ f = none then .error [.missingContentSource]
      else if c ≠ none ∧ f ≠ none then .error [.bothContentSources]
      else .ok ⟨c, f, fmt, secs⟩
  | _, _, _, _ => .error (errOf c ++ errOf f ++ errOf fmt ++ errOf secs)

/-- `type` field: strip, length bounds 1..100, then
`validate_type_format` (lower-case, spaces to underscores, pattern). -/
def validateTypeField (v : Str) : Except RecipeError Str :=
  let v := pyStrip v
  if ¬ (v ≠ [] ∧ v.length ≤ 100) then .error (.fieldError "type".data)
  else
    let normalized := pyUnderscore (pyLower v)
    if matchesTypePattern normalized then .ok normalized
    else .error .typePatternInvalid

/-- `description` field: strip, `DescriptionField` bound 500. -/
def validateDescriptionField (v : Option Str) :
    Except RecipeError (Option Str) :=
  match v with
  | none => .ok none
  | some d =>
      let d := pyStrip d
      if d.length ≤ 500 then .ok (some d)
      else .error (.fieldError "description".data)

/-- `framework_preference` field: strip, then
`validate_framework_preference` (lower-case, membership). -/
def validateFrameworkPreferenceField (v : Option Str) :
    Except RecipeError (Option Str) :=
  match v with
  | none => .ok none
  | some f =>
      let f := pyStrip f
      if pyLower f ∈ validFrameworks then .ok (some (pyLower f))
      else .error .invalidFramework

/-- `DiagramRequest` validation (field errors accumulate). -/
def validateDiagramRequest (r : DiagramRequest) :
    Except (List RecipeError) DiagramRequest :=
  let t := validateTypeField r.type
  let d := validateDescriptionField r.description
  let fp := validateFrameworkPreferenceField r.framework_preference
  match t, d, fp with
  | .ok t, .ok d, .ok fp => .ok ⟨t, d, fp⟩
  | _, _, _ => .error (errOf t ++ errOf d ++ errOf fp)

/-- Enumeration-valued optional field: membership in the value set. -/
def validateEnumField (field : Str) (valid : List Str) (v : Option Str) :
    Except RecipeError (Option Str) :=
  match v with
  | none => .ok none
  | some s => if s ∈ valid then .ok (some s) else .error (.fieldError field)

/-- Optional free-text field with a length bound (strip first). -/
def validateBoundedText (field : Str) (bound : Nat) (v : Option Str) :
    Except RecipeError (Option Str) :=
  match v with
  | none => .ok none
  | some s =>
      let s := pyStrip s
      if s.length ≤ bound then .ok (some s) else .error (.fieldError field)

/-- Optional `list[str]` field with no validator: elements stripped. -/
def normalizeStrList (v : Option (List Str)) : Option (List Str) :=
  v.map (fun l => l.map pyStrip)

/-- Optional bounded integer field (`ge`/`le`). -/
def validateIntRange (field : Str) (lo hi : Int) (v : Option Int) :
    Except RecipeError (Option Int) :=
  match v with
  | none => .ok none
  | some n =>
      if lo ≤ n ∧ n ≤ hi then .ok (some n) else .error (.fieldError field)

/-- Optional strictly positive integer field (`gt=0`). -/
def validatePositiveInt (field : Str) (v : Option Int) :
    Except RecipeError (Option Int) :=
  match v with
  | none => .ok none
  | some n => if 0 < n then .ok (some n) else .error (.fieldError field)

/-- `DocumentationInstructions` validation. -/
def validateDocumentationInstructions (r : DocumentationInstructions) :
    Except (List RecipeError) DocumentationInstructions :=
  let st := validateEnumField "style".data docStyles r.style
  let au := validateBoundedText "audience".data 255 r.audience
  let secs := validateSectionsField r.sections
  let dl := validateEnumField "detail_level".data detailLevels r.detail_level
  match st, au, secs, dl with
  | .ok st, .ok au, .ok secs, .ok dl =>
      .ok ⟨st, au, secs, dl, r.include_code_examples,
           r.include_diagrams_inline⟩
  | _, _, _, _ => .error (errOf st ++ errOf au ++ errOf secs ++ errOf dl)

/-- `PresentationInstructions` validation. -/
def validatePresentationInstructions (r : PresentationInstructions) :
    Except (List RecipeError) PresentationInstructions :=
  let au := validateBoundedText "audience".data 255 r.audience
  let ms := validateIntRange "max_slides".data 5 100 r.max_slides
  let st := validateEnumField "style".data presentationStyles r.style
  let tl := validatePositiveInt "time_limit".data r.time_limit
  match au, ms, st, tl with
  | .ok au, .ok ms, .ok st, .ok tl =>
      .ok ⟨au, ms, st, r.include_speaker_notes,
           normalizeStrList r.emphasis_points, tl⟩
  | _, _, _, _ => .error (errOf au ++ errOf ms ++ errOf st ++ errOf tl)

/-- The uniqueness key `f"{diagram.type}_{diagram.description or ''}"` of
`validate_diagram_uniqueness` (`or ''` maps both `None` and the empty
string to the empty string). -/
def diagramKey (d : DiagramRequest) : Str :=
  d.type ++ "_".data ++ (d.description.getD [])

/-- First duplicated request in `validate_diagram_uniqueness`'s scan
order; reports the offending `type`. -/
def firstDuplicate : List DiagramRequest → List Str → Option Str
  | [], _ => none
  | d :: rest, seen =>
      if diagramKey d ∈ seen then some d.type
      else firstDuplicate rest (diagramKey d :: seen)

/-- `diagrams` field: validate every element (errors accumulate), enforce
`min_length=1`, then run `validate_diagram_uniqueness`. -/
def validateDiagramsField (l : List DiagramRequest) :
    Except (List RecipeError) (List DiagramRequest) :=
  let results := l.map validateDiagramRequest
  let errs := (results.map errsOf).flatten
  if errs ≠ [] then .error errs
  else
    let ok := results.filterMap (fun r =>
      match r with | .ok d => some d | .error _ => none)
    if ok.length < 1 then .error [.fieldError "diagrams".data]
    else
      match firstDuplicate ok [] with
      | some t => .error [.duplicateDiagram t]
      | none => .ok ok

/-- Optional `DocumentationInstructions` sub-model. -/
def validateDocumentationOpt (v : Option DocumentationInstructions) :
    Except (List RecipeError) (Option DocumentationInstructions) :=
  match v with
  | none => .ok none
  | some d => (validateDocumentationInstructions d).map some

/-- Optional `PresentationInstructions` sub-model. -/
def validatePresentationOpt (v : Option PresentationInstructions) :
    Except (List RecipeError) (Option PresentationInstructions) :=
  match v with
  | none => .ok none
  | some p => (validatePresentationInstructions p).map some

/-- `UserInstructions` validation. -/
def validateUserInstructions (r : UserInstructions) :
    Except (List RecipeError) UserInstructions :=
  let dg := validateDiagramsField r.diagrams
  let doc := validateDocumentationOpt r.documentation
  let pres := validatePresentationOpt r.presentation
  match dg, doc, pres with
  | .ok dg, .ok doc, .ok pres =>
      .ok ⟨dg, doc, pres, normalizeStrList r.focus_areas,
           normalizeStrList r.exclude⟩
  | _, _, _ => .error (errsOf dg ++ errsOf doc ++ errsOf pres)

/-- `Preferences` validation: plain optional strings, stripped, no
constraints, so it cannot fail. -/
def normalizePreferences (p : Preferences) : Preferences :=
  ⟨p.default_framework.map pyStrip, p.diagram_style.map pyStrip,
   p.color_scheme.map pyStrip, p.theme.map pyStrip,
   p.custom_templates.map (fun l =>
     l.map (fun kv => (pyStrip kv.1, pyStrip kv.2)))⟩

/-- `metadata` (`dict[str, Any]`): keys are validated as `str` (stripped),
values are `Any` and untouched. -/
def normalizeMetadata (m : List (Str × JsonVal)) : List (Str × JsonVal) :=
  m.map (fun kv => (pyStrip kv.1, kv.2))

/-- `name` field: strip, `NameField` bounds, then
`UserRecipe.validate_name_format`. -/
def validateNameField (v : Str) : Except RecipeError Str :=
  let v := pyStrip v
  if ¬ (nameFieldOk v = true) then .error (.fieldError "name".data)
  else if matchesNamePattern v then .ok v
  else .error .namePatternInvalid

/-- `version` field: strip, `VersionField` pattern. -/
def validateVersionField (v : Str) : Except RecipeError Str :=
  let v := pyStrip v
  if matchesVersionPattern v then .ok v
  else .error (.fieldError "version".data)

/-- Full `UserRecipe` validation: every field (errors accumulate), then
the `validate_recipe_completeness` model validator. -/
def validateUserRecipe (r : UserRecipe) :
    Except (List RecipeError) UserRecipe :=
  let nm := validateNameField r.name
  let ver := validateVersionField r.version
  let prd := validatePRDContent r.prd
  let ins := validateUserInstructions r.instructions
  match nm, ver, prd, ins with
  | .ok nm, .ok ver, .ok prd, .ok ins =>
      if ins.diagrams = [] then .error [.noDiagrams]
      else .ok ⟨nm, ver, prd, ins, r.preferences.map normalizePreferences,
                r.metadata.map normalizeMetadata⟩
  | _, _, _, _ =>
      .error (errOf nm ++ errOf ver ++ errsOf prd ++ errsOf ins)

/-! ## `models/processed_recipe.py` and `models/content.py` -/

/-- A Python `datetime`: the wall-clock reading (as seconds since the
epoch) plus an optional `tzinfo` utc-offset in seconds (`none` = naive).
Python compares two aware datetimes by their absolute instants
`naive - offset`. -/
structure PyDatetime where
  naive : Int
  tz : Option Int := none
deriving DecidableEq

/-- Python `a > b` on two aware datetimes: compare absolute instants. -/
def dtGt (a b : PyDatetime) : Bool :=
  a.naive - a.tz.getD 0 > b.naive - b.tz.getD 0

/-- `v.replace(tzinfo=UTC)` when `v` is naive, else `v` unchanged. -/
def replaceNaiveUTC (v : PyDatetime) : PyDatetime :=
  if v.tz = none then { v with tz := some 0 } else v

/-- The absolute instant of a timestamp, reading a naive one as UTC. -/
def utcInstant (v : PyDatetime) : Int :=
  match v.tz with
  | none => v.naive
  | some off => v.naive - off

/-- `ProcessedRecipe.validate_generation_time` for an already-parsed
timestamp: interpret a naive value as UTC, build `datetime.now(v.tzinfo)`
from the current absolute time `nowAbs`, and reject `v > now`. (A string
input is first ISO-parsed into such a timestamp and then follows the same
path.) -/
def validateGenerationTime (nowAbs : Int) (v : PyDatetime) :
    Except Str PyDatetime :=
  let v := replaceNaiveUTC v
  let now : PyDatetime := { naive := nowAbs + v.tz.getD 0, tz := v.tz }
  if dtGt v now then .error "Generation time cannot be in the future".data
  else .ok v

/-- `DiagramReference` (processed_recipe.py). -/
structure DiagramReference where
  id : Str
  title : Str
  type : DiagramType
  expected_path : Str
  actual_paths : Option (List (OutputFormat × Str)) := none
  description : Option Str := none
  status : Str := "pending".data
deriving DecidableEq

/-- `ContentType` (base.py). -/
inductive ContentType where
  | documentation | presentation
deriving DecidableEq

/-- `ContentFile` (content.py). -/
structure ContentFile where
  id : Str
  path : Str
  type : ContentType
  agent : Str
  base_prompt : Str
  diagram_refs : List Str := []
  title : Option Str := none
  last_updated : PyDatetime
deriving DecidableEq

/-- `OutputConfig` (processed_recipe.py). -/
structure OutputConfig where
  assets_dir : Str := "docs/assets".data
  mkdocs : Option JsonVal := none
  marp : Option JsonVal := none
deriving DecidableEq

/-- `ProcessedRecipe` (processed_recipe.py). -/
structure ProcessedRecipe where
  name : Str
  version : Str
  source_recipe : Str
  generated_at : PyDatetime
  content_files : List ContentFile
  diagram_specs : List DiagramSpecification
  diagram_refs : List DiagramReference
  outputs : OutputConfig
  generation_notes : Option (List Str) := none
deriving DecidableEq

/-- Errors raised by the two cross-collection model validators. -/
inductive ConsistencyError where
  | inconsistentRefs (missing extra : List Str)
  | invalidContentRefs (path : Str) (invalid : List Str)
deriving DecidableEq

/-- The set `{spec.id for spec in self.diagram_specs}`. -/
def specIds (r : ProcessedRecipe) : List Str :=
  (r.diagram_specs.map (fun s => s.id)).dedup

/-- The set `{ref.id for ref in self.diagram_refs}`. -/
def refIds (r : ProcessedRecipe) : List Str :=
  (r.diagram_refs.map (fun s => s.id)).dedup

/-- `spec_ids - ref_ids` of `validate_diagram_consistency`. -/
def missingRefs (r : ProcessedRecipe) : List Str :=
  (specIds r).filter (fun x => x ∉ refIds r)

/-- `ref_ids - spec_ids` of `validate_diagram_consistency`. -/
def extraRefs (r : ProcessedRecipe) : List Str :=
  (refIds r).filter (fun x => x ∉ specIds r)

/-- `ProcessedRecipe.validate_diagram_consistency` (first `mode="after"`
model validator): raises one error naming the missing and the extra
identifier sets when `{spec.id} != {ref.id}`. -/
def validateDiagramConsistency (r : ProcessedRecipe) :
    Except ConsistencyError ProcessedRecipe :=
  if missingRefs r = [] ∧ extraRefs r = [] then .ok r
  else .error (.inconsistentRefs (missingRefs r) (extraRefs r))

/-- The scan of `validate_content_diagram_refs`: the first content file
whose `diagram_refs` mention an identifier outside `valid`, with the
offending identifiers (`set(content_file.diagram_refs) - valid`). -/
def firstInvalidContent (files : List ContentFile) (valid : List Str) :
    Option (Str × List Str) :=
  match files with
  | [] => none
  | cf :: rest =>
      let invalid := (cf.diagram_refs.dedup).filter (fun x => x ∉ valid)
      if invalid ≠ [] then some (cf.path, invalid)
      else firstInvalidContent rest valid

/-- `ProcessedRecipe.validate_content_diagram_refs` (second model
validator): raises at the first offending content file. -/
def validateContentDiagramRefs (r : ProcessedRecipe) :
    Except ConsistencyError ProcessedRecipe :=
  match firstInvalidContent r.content_files (specIds r) with
  | some (p, invalid) => .error (.invalidContentRefs p invalid)
  | none => .ok r

/-- The cross-collection phase of `ProcessedRecipe` validation: pydantic
runs the `mode="after"` model validators in declaration order and stops at
the first raised error, which becomes a single-entry error list. -/
def crossValidateProcessedRecipe (r : ProcessedRecipe) :
    Except (List ConsistencyError) ProcessedRecipe :=
  match validateDiagramConsistency r with
  | .error e => .error [e]
  | .ok r =>
      match validateContentDiagramRefs r with
      | .error e => .error [e]
      | .ok r => .ok r

/-- `model_dump` of a validated recipe: serialisation writes every stored
field back out unchanged (enum fields already hold their value strings
because of `use_enum_values=True`). -/
def serializeUserRecipe (r : UserRecipe) : UserRecipe :=
  { name := r.name, version := r.version,
    prd := { content := r.prd.content, file_path := r.prd.file_path,
             format := r.prd.format, sections := r.prd.sections },
    instructions :=
      { diagrams := r.instructions.diagrams.map (fun d =>
          { type := d.type, description := d.description,
            framework_preference := d.framework_preference }),
        documentation := r.instructions.documentation,
        presentation := r.instructions.presentation,
        focus_areas := r.instructions.focus_areas,
        exclude := r.instructions.exclude },
    preferences := r.preferences, metadata := r.metadata }

/-! ## `json.dumps` with `indent=2` (ensure_ascii), as used by
`models/state.py` -/

/-- Opening brace character (written by code point). -/
def lbrace : Char := Char.ofNat 123

/-- Closing brace character (written by code point). -/
def rbrace : Char := Char.ofNat 125

/-- Decimal digit character for a value below ten. -/
def digitChar (n : Nat) : Char := Char.ofNat (48 + n)

/-- Decimal digits, fuel-bounded so that the kernel can evaluate it. -/
def natToDigitsAux : Nat → Nat → Str
  | 0, _ => []
  | fuel + 1, n =>
      if n < 10 then [digitChar n]
      else natToDigitsAux fuel (n / 10) ++ [digitChar (n % 10)]

/-- Decimal digits of a natural number, most significant first. -/
def natToDigits (n : Nat) : Str := natToDigitsAux (n + 1) n

/-- Python `repr` of an integer. -/
def intToStr (i : Int) : Str :=
  if i < 0 then '-' :: natToDigits i.natAbs else natToDigits i.toNat

/-- Lower-case hexadecimal digit. -/
def toHexDigit (n : Nat) : Char :=
  Char.ofNat (if n < 10 then 48 + n else 87 + n)

/-- Four-digit lower-case hexadecimal rendering (`\uXXXX` payload). -/
def toHex4 (n : Nat) : Str :=
  [toHexDigit (n / 4096 % 16), toHexDigit (n / 256 % 16),
   toHexDigit (n / 16 % 16), toHexDigit (n % 16)]

/-- `json.dumps` escaping of one character with `ensure_ascii=True`:
short escapes for the common control characters, `\uXXXX` for other control and
non-ASCII characters, a surrogate pair beyond the BMP. -/
def escapeChar (c : Char) : Str :=
  if c = '"' then ['\\', '"']
  else if c = '\\' then ['\\', '\\']
  else if c = '\n' then ['\\', 'n']
  else if c = '\t' then ['\\', 't']
  else if c = '\x0d' then ['\\', 'r']
  else if c = '\x08' then ['\\', 'b']
  else if c = '\x0c' then ['\\', 'f']
  else if c.toNat < 32 then '\\' :: 'u' :: toHex4 c.toNat
  else if c.toNat < 127 then [c]
  else if c.toNat < 65536 then '\\' :: 'u' :: toHex4 c.toNat
  else
    let v := c.toNat - 65536
    ('\\' :: 'u' :: toHex4 (55296 + v / 1024)) ++
      ('\\' :: 'u' :: toHex4 (56320 + v % 1024))

/-- JSON string literal for a text value. -/
def dumpStr (s : Str) : Str :=
  '"' :: (s.map escapeChar).flatten ++ ['"']

/-- An indentation run. -/
def spaces (n : Nat) : Str := List.replicate n ' '

mutual

/-- `json.dumps(v, indent=2)` at a given indentation level. -/
def dumpVal (ind : Nat) : JsonVal → Str
  | .null => "null".data
  | .bool true => "true".data
  | .bool false => "false".data
  | .num i => intToStr i
  | .str s => dumpStr s
  | .arr [] => ['[', ']']
  | .arr (x :: xs) =>
      '[' :: '\n' :: spaces (ind + 2) ++ dumpVal (ind + 2) x ++
        dumpArrRest (ind + 2) xs ++ '\n' :: spaces ind ++ [']']
  | .obj [] => [lbrace, rbrace]
  | .obj (kv :: kvs) =>
      lbrace :: '\n' :: spaces (ind + 2) ++ dumpStr kv.1 ++
        ':' :: ' ' :: dumpVal (ind + 2) kv.2 ++
        dumpObjRest (ind + 2) kvs ++ '\n' :: spaces ind ++ [rbrace]

/-- Remaining array items, each preceded by "`,\n<indent>`". -/
def dumpArrRest (ind : Nat) : List JsonVal → Str
  | [] => []
  | x :: xs =>
      ',' :: '\n' :: spaces ind ++ dumpVal ind x ++ dumpArrRest ind xs

/-- Remaining object members, each preceded by "`,\n<indent>`". -/
def dumpObjRest (ind : Nat) : List (Str × JsonVal) → Str
  | [] => []
  | kv :: kvs =>
      ',' :: '\n' :: spaces ind ++ dumpStr kv.1 ++
        ':' :: ' ' :: dumpVal ind kv.2 ++ dumpObjRest ind kvs

end

/-- `json.dumps(data, indent=2)` (the form `write_state` uses). -/
def dumps (v : JsonVal) : Str := dumpVal 0 v

/-! ## `json.loads`, scoped to the integer-numbered fragment -/

/-- The single error class `json.loads` raises (`JSONDecodeError`). -/
inductive JErr where
  | decodeError
deriving DecidableEq

/-- JSON inter-token whitespace. -/
def isJsonWS (c : Char) : Bool :=
  c = ' ' || c = '\t' || c = '\n' || c = '\x0d'

/-- Skip inter-token whitespace. -/
def skipWS (s : Str) : Str := s.dropWhile isJsonWS

/-- Value of one hexadecimal digit. -/
def hexVal (c : Char) : Option Nat :=
  if 48 ≤ c.toNat ∧ c.toNat ≤ 57 then some (c.toNat - 48)
  else if 97 ≤ c.toNat ∧ c.toNat ≤ 102 then some (c.toNat - 87)
  else if 65 ≤ c.toNat ∧ c.toNat ≤ 70 then some (c.toNat - 55)
  else none

/-- Decode one short escape character. -/
def escDecode (e : Char) : Option Char :=
  if e = '"' then some '"'
  else if e = '\\' then some '\\'
  else if e = '/' then some '/'
  else if e = 'b' then some '\x08'
  else if e = 'f' then some '\x0c'
  else if e = 'n' then some '\n'
  else if e = 'r' then some '\x0d'
  else if e = 't' then some '\t'
  else none

/-- Decode one unit of a JSON string body: a literal character (raw
control characters rejected, `strict=True`), a short escape, or a
`\uXXXX` escape with surrogate-pair combination (a lone surrogate escape
is rejected in this model). `none` on a closing quote or malformed
input. -/
def unescapeOne : Str → Option (Char × Str)
  | [] => none
  | c :: rest =>
    if c = '"' then none
    else if c = '\\' then
      match rest with
      | [] => none
      | e :: rest2 =>
        if e = 'u' then
          match rest2 with
          | a :: b :: cc :: d :: rest3 =>
            match hexVal a, hexVal b, hexVal cc, hexVal d with
            | some ha, some hb, some hc, some hd =>
              let n := ha * 4096 + hb * 256 + hc * 16 + hd
              if 55296 ≤ n ∧ n ≤ 56319 then
                match rest3 with
                | s1 :: u1 :: a2 :: b2 :: c2 :: d2 :: rest4 =>
                  if s1 = '\\' ∧ u1 = 'u' then
                    match hexVal a2, hexVal b2, hexVal c2, hexVal d2 with
                    | some ha2, some hb2, some hc2, some hd2 =>
                      let m := ha2 * 4096 + hb2 * 256 + hc2 * 16 + hd2
                      if 56320 ≤ m ∧ m ≤ 57343 then
                        some (Char.ofNat
                          (65536 + (n - 55296) * 1024 + (m - 56320)),
                          rest4)
                      else none
                    | _, _, _, _ => none
                  else none
                | _ => none
              else some (Char.ofNat n, rest3)
            | _, _, _, _ => none
          | _ => none
        else
          match escDecode e with
          | some ch => some (ch, rest2)
          | none => none
    else if c.toNat < 32 then none
    else some (c, rest)

/-- The scanning loop of a JSON string body after the opening quote,
fuel-bounded (each unit consumes at least one character). -/
def psbAux : Nat → Str → Except JErr (Str × Str)
  | 0, _ => .error .decodeError
  | fuel + 1, s =>
    if s.head? = some '"' then .ok ([], s.tail)
    else
      match unescapeOne s with
      | some (ch, s2) =>
          match psbAux fuel s2 with
          | .ok (tail, r) => .ok (ch :: tail, r)
          | .error err => .error err
      | none => .error .decodeError

/-- Parse a JSON string body after the opening quote. -/
def parseStringBody (s : Str) : Except JErr (Str × Str) :=
  psbAux (s.length + 1) s

/-- Maximal run of decimal digits, accumulating the value. -/
def parseDigitsAux : Str → Nat → Nat × Str
  | [], acc => (acc, [])
  | c :: rest, acc =>
      if isDigitChar c then parseDigitsAux rest (acc * 10 + (c.toNat - 48))
      else (acc, c :: rest)

/-- Parse a JSON number by Python's grammar (`-?(0|[1-9][0-9]*)`); a
fraction or exponent would produce a float, which is outside this model,
so it is rejected here. -/
def parseNum (s : Str) : Except JErr (Int × Str) :=
  let neg : Bool := s.head? = some '-'
  match (if neg then s.tail else s) with
  | [] => .error .decodeError
  | c :: rest =>
      if isDigitChar c = true then
        let pr := if c = '0' then ((0 : Nat), rest)
                  else parseDigitsAux rest (c.toNat - 48)
        if pr.2.head? = some '.' ∨ pr.2.head? = some 'e' ∨
            pr.2.head? = some 'E' then .error .decodeError
        else .ok (if neg then -(pr.1 : Int) else (pr.1 : Int), pr.2)
      else .error .decodeError

mutual

/-- Parse one JSON value (fuel-bounded recursion). -/
def parseVal (fuel : Nat) (s : Str) : Except JErr (JsonVal × Str) :=
  match fuel with
  | 0 => .error .decodeError
  | fuel + 1 =>
    match skipWS s with
    | [] => .error .decodeError
    | c :: rest =>
      if c = '"' then
        match parseStringBody rest with
        | .ok (str, r) => .ok (.str str, r)
        | .error e => .error e
      else if c = lbrace then
        if (skipWS rest).head? = some rbrace then
          .ok (.obj [], (skipWS rest).tail)
        else parseObjItems fuel (skipWS rest)
      else if c = '[' then
        if (skipWS rest).head? = some ']' then
          .ok (.arr [], (skipWS rest).tail)
        else parseArrItems fuel (skipWS rest)
      else if c = 't' then
        match rest with
        | 'r' :: 'u' :: 'e' :: r => .ok (.bool true, r)
        | _ => .error .decodeError
      else if c = 'f' then
        match rest with
        | 'a' :: 'l' :: 's' :: 'e' :: r => .ok (.bool false, r)
        | _ => .error .decodeError
      else if c = 'n' then
        match rest with
        | 'u' :: 'l' :: 'l' :: r => .ok (.null, r)
        | _ => .error .decodeError
      else if c = '-' ∨ isDigitChar c then
        match parseNum (c :: rest) with
        | .ok (i, r) => .ok (.num i, r)
        | .error e => .error e
      else .error .decodeError

/-- Parse the items of a non-empty array, the opening bracket and leading
whitespace already consumed. -/
def parseArrItems (fuel : Nat) (s : Str) :
    Except JErr (JsonVal × Str) :=
  match fuel with
  | 0 => .error .decodeError
  | fuel + 1 =>
    match parseVal fuel s with
    | .error e => .error e
    | .ok (v, s1) =>
      match skipWS s1 with
      | ',' :: s2 =>
          match parseArrItems fuel s2 with
          | .ok (.arr vs, r) => .ok (.arr (v :: vs), r)
          | .ok _ => .error .decodeError
          | .error e => .error e
      | ']' :: s2 => .ok (.arr [v], s2)
      | _ => .error .decodeError

/-- Parse the members of a non-empty object, the opening brace and
leading whitespace already consumed. -/
def parseObjItems (fuel : Nat) (s : Str) :
    Except JErr (JsonVal × Str) :=
  match fuel with
  | 0 => .error .decodeError
  | fuel + 1 =>
    match s with
    | '"' :: s1 =>
      match parseStringBody s1 with
      | .error e => .error e
      | .ok (k, s2) =>
        match skipWS s2 with
        | ':' :: s3 =>
          match parseVal fuel s3 with
          | .error e => .error e
          | .ok (v, s4) =>
            match skipWS s4 with
            | ',' :: s5 =>
                match parseObjItems fuel (skipWS s5) with
                | .ok (.obj kvs, r) => .ok (.obj ((k, v) :: kvs), r)
                | .ok _ => .error .decodeError
                | .error e => .error e
            | d :: s5 =>
                if d = rbrace then .ok (.obj [(k, v)], s5)
                else .error .decodeError
            | [] => .error .decodeError
        | _ => .error .decodeError
    | _ => .error .decodeError

end

mutual

/-- Fuel sufficient for `parseVal` on a serialized value. -/
def fuelVal : JsonVal → Nat
  | .arr xs => 1 + fuelItems xs
  | .obj kvs => 1 + fuelMembers kvs
  | _ => 1

/-- Fuel sufficient for `parseArrItems` on serialized items. -/
def fuelItems : List JsonVal → Nat
  | [] => 1
  | x :: xs => 1 + fuelVal x + fuelItems xs

/-- Fuel sufficient for `parseObjItems` on serialized members. -/
def fuelMembers : List (Str × JsonVal) → Nat
  | [] => 1
  | kv :: kvs => 1 + fuelVal kv.2 + fuelMembers kvs

end

/-- Text made of JSON whitespace only. -/
def wsOnly (s : Str) : Prop := ∀ c ∈ s, isJsonWS c = true

/-- A legal continuation after a serialized value: end of input, a
separating comma, or the newline preceding a closing bracket. -/
def goodRest : Str → Prop
  | [] => True
  | c :: _ => c = ',' ∨ c = '\n'

/-- `json.loads`: parse one value and require only whitespace after it
("Extra data" otherwise). -/
def loads (s : Str) : Except JErr JsonVal :=
  match parseVal (s.length + 1) s with
  | .error e => .error e
  | .ok (v, rest) =>
      if skipWS rest = [] then .ok v else .error .decodeError

/-! ## `models/state.py`: StateManager over an explicit state directory -/

/-- The state directory: file name to file content. -/
abbrev FileSys := List (Str × Str)

/-- Look a file up by name. -/
def fsGet (fs : FileSys) (name : Str) : Option Str :=
  match fs with
  | [] => none
  | (n, c) :: rest => if n = name then some c else fsGet rest name

/-- Write a file (whole-file replace). -/
def fsSet (fs : FileSys) (name content : Str) : FileSys :=
  match fs with
  | [] => [(name, content)]
  | (n, c) :: rest =>
      if n = name then (n, content) :: rest
      else (n, c) :: fsSet rest name content

/-- `self.state_dir / f"{key}.json"`. -/
def stateFileName (key : Str) : Str := key ++ ".json".data

/-- `self.state_dir / f"{key}.json.backup"`. -/
def backupFileName (key : Str) : Str := key ++ ".json.backup".data

/-- `StateManager.write_state`. -/
def write_state (fs : FileSys) (key : Str) (data : JsonVal) : FileSys :=
  fsSet fs (stateFileName key) (dumps data)

/-- `StateManager.read_state`: `none` when the file does not exist,
otherwise the (possibly failing) parse of its content. -/
def read_state (fs : FileSys) (key : Str) : Option (Except JErr JsonVal) :=
  (fsGet fs (stateFileName key)).map loads

/-- `StateManager.write_state_with_backup`: copy the current file to the
`.backup` sibling (when it exists), then write the new state. -/
def write_state_with_backup (fs : FileSys) (key : Str) (data : JsonVal) :
    FileSys :=
  let fs2 := match fsGet fs (stateFileName key) with
    | some t => fsSet fs (backupFileName key) t
    | none => fs
  write_state fs2 key data

/-- Join lines with newlines (`"\n".join(lines)`). -/
def joinNL (ls : List Str) : Str := List.intercalate ['\n'] ls

/-- Python `str.splitlines()` for newline-separated content (the only
separator `json.dumps` emits): no trailing empty piece. -/
def pySplitlines (s : Str) : List Str :=
  match s with
  | [] => []
  | _ =>
      let parts := splitOnChar '\n' s
      if s.getLast? = some '\n' then parts.dropLast else parts

/-- The `for i in range(len(lines), 0, -1)` retry loop of
`recover_from_error`: first line-count `i` (longest first) whose joined
leading lines parse. -/
def tryFrom (lines : List Str) : Nat → Option JsonVal
  | 0 => none
  | i + 1 =>
      match loads (joinNL (lines.take (i + 1))) with
      | .ok v => some v
      | .error _ => tryFrom lines i

/-- The line-by-line partial recovery of `recover_from_error`. -/
def partialRecover (text : Str) : Option JsonVal :=
  tryFrom (pySplitlines text) (pySplitlines text).length

/-- `StateManager.recover_from_error`: normal read, then the backup
sibling, then line-by-line partial recovery; `None` when everything
fails. Only `JSONDecodeError` escapes `json.loads`, and every branch
catches it, so the function returns normally on every input. -/
def recover_from_error (fs : FileSys) (key : Str) : Option JsonVal :=
  match fsGet fs (stateFileName key) with
  | none => none
  | some text =>
    match loads text with
    | .ok v => some v
    | .error _ =>
      match fsGet fs (backupFileName key) with
      | some btext =>
          match loads btext with
          | .ok v => some v
          | .error _ => partialRecover text
      | none => partialRecover text

/-- C6's "in particular" instance: an architecture job with no framework,
no formats, and an output path whose extension maps to no framework. -/
def archSpec : DiagramSpecification :=
  { id := "a1".data, type := .architecture, framework := none,
    agent := "t2d-d2-generator".data, title := "Arch".data,
    instructions := "draw the high level service architecture".data,
    output_file := "out/arch.txt".data, output_formats := [] }

/-- A requirements block providing neither inline content nor a file path,
but with an invalid `format` value. -/
def badFormatPRD : PRDContent :=
  { content := none, file_path := none, format := some "bogus".data,
    sections := none }

/-- A concrete valid intent document. -/
def billingRecipe : UserRecipe :=
  { name := "billing-service".data,
    version := "1.0.0".data,
    prd := { content := some "# Billing and payment flows".data },
    instructions :=
      { diagrams := [{ type := "architecture".data }] } }

/-- A diagram job for the multi-violation execution plan. -/
def badPlanSpec : DiagramSpecification :=
  { id := "d1".data, type := .flowchart, framework := some .mermaid,
    agent := "t2d-mermaid-generator".data, title := "Flow".data,
    instructions := "draw the main user flow steps".data,
    output_file := "out/flow.mmd".data, output_formats := [.svg] }

/-- A diagram reference whose identifier matches no job. -/
def badPlanRef : DiagramReference :=
  { id := "d2".data, title := "Flow".data, type := .flowchart,
    expected_path := "out/flow.svg".data }

/-- A content file referencing an unknown diagram identifier. -/
def badPlanContent : ContentFile :=
  { id := "c1".data, path := "docs/overview.md".data,
    type := .documentation, agent := "t2d-mkdocs-generator".data,
    base_prompt := "write a thorough overview document".data,
    diagram_refs := ["dX".data],
    last_updated := { naive := 0, tz := some 0 } }

/-- An execution plan violating both the set-equality check (job id `d1`
vs reference id `d2`) and the content-file subset check (`dX` unknown). -/
def badPlan : ProcessedRecipe :=
  { name := "plan".data, version := "1.0.0".data,
    source_recipe := "recipe.yaml".data,
    generated_at := { naive := 0, tz := some 0 },
    content_files := [badPlanContent],
    diagram_specs := [badPlanSpec],
    diagram_refs := [badPlanRef],
    outputs := {} }

/-! ## Theorems -/

/-- Every entry of the `framework_defaults` lookup (including the fallback
for frameworks outside the table) is the single vector format. -/
theorem frameworkDefaults_eq (fw : Option FrameworkType) :
    frameworkDefaults fw = [.svg] := by
  rcases fw with _ | f
  · rfl
  · cases f <;> rfl

/-- C2 counterexample: the diagram job `gvPieSpec` resolves framework
graphviz (via the `.gv` extension) with a `pie` category that graphviz's
capability entry does not list (graphviz has no entry at all), yet full
validation succeeds silently instead of failing. -/
theorem gv_unsupported_category_passes_validation :
    validateDiagramSpecification gvPieSpec =
      .ok { gvPieSpec with framework := some .graphviz,
                           output_formats := [.svg] } ∧
    frameworkSupportsType .graphviz gvPieSpec.type = false := by
  constructor
  · rfl
  · rfl

/-- C2 (amended): once a framework with an entry in the compatibility
matrix (d2, mermaid, plantuml) is resolved, an unsupported category fails
validation with an error naming the framework and the category; but a
resolved framework absent from the matrix (graphviz, auto) skips the
compatibility check entirely, so any category passes silently. -/
theorem compat_check_only_matrix_frameworks :
    (∀ (s : DiagramSpecification) (fw : FrameworkType)
        (caps : FrameworkCapabilities),
        s.framework = some fw → frameworkCapabilities fw = some caps →
        s.type ∉ caps.types →
        validateFrameworkCompatibility s =
          .error (.unsupportedType fw s.type)) ∧
    (∀ (s : DiagramSpecification) (fw : FrameworkType),
        s.framework = some fw → frameworkCapabilities fw = none →
        validateFrameworkCompatibility s = .ok s) := by
  constructor
  · intro s fw caps hfw hcaps hns
    simp [validateFrameworkCompatibility, hfw, hcaps, hns]
  · intro s fw hfw hcaps
    simp [validateFrameworkCompatibility, hfw, hcaps]

/-- Witness for `compat_check_only_matrix_frameworks` at concrete inputs:
d2 does not support `pie`, so the check fails naming d2 and pie; graphviz
has no matrix entry, so the same category passes. -/
theorem compat_check_only_matrix_frameworks_witness :
    validateFrameworkCompatibility { gvPieSpec with framework := some .d2 } =
      .error (.unsupportedType .d2 .pie) ∧
    validateFrameworkCompatibility
      { gvPieSpec with framework := some .graphviz } =
      .ok { gvPieSpec with framework := some .graphviz } := by
  refine ⟨?_, ?_⟩
  · exact compat_check_only_matrix_frameworks.1
      { gvPieSpec with framework := some .d2 }
      .d2 _ rfl rfl (by decide)
  · exact compat_check_only_matrix_frameworks.2
      { gvPieSpec with framework := some .graphviz } .graphviz rfl rfl

/-- When no framework is given, auto-detection resolves the output-path
extension through the extension table, falling back to the per-category
default. -/
theorem autoDetect_framework_none (s : DiagramSpecification)
    (h : s.framework = none) :
    (autoDetectFrameworkAndFormats s).framework =
      some ((extensionToFramework (pySuffix s.output_file)).getD
        (getDefaultFrameworkForType s.type)) := by
  simp only [autoDetectFrameworkAndFormats, h]
  split <;> rfl

/-- Auto-detection replaces an empty output-format list with `[svg]` and
keeps a non-empty one unchanged. -/
theorem autoDetect_formats (s : DiagramSpecification) :
    (autoDetectFrameworkAndFormats s).output_formats =
      if s.output_formats.isEmpty then [.svg] else s.output_formats := by
  cases hf : s.framework <;>
    simp only [autoDetectFrameworkAndFormats, hf] <;>
    split <;>
    simp_all [frameworkDefaults_eq]

/-- C6: framework auto-resolution order (output-path extension first, the
static category table otherwise), the contents of the category table
(architecture family to d2, interaction/state/chart categories to mermaid,
UML-flavored categories to plantuml), the empty-format default to the
single vector format `svg`, that the resolved format list is never empty,
and the particular architecture instance. -/
theorem framework_resolution_order_and_format_default :
    (∀ s : DiagramSpecification, s.framework = none →
      (∀ fw, extensionToFramework (pySuffix s.output_file) = some fw →
        (autoDetectFrameworkAndFormats s).framework = some fw) ∧
      (extensionToFramework (pySuffix s.output_file) = none →
        (autoDetectFrameworkAndFormats s).framework =
          some (getDefaultFrameworkForType s.type))) ∧
    (∀ t ∈ ([.architecture, .c4_context, .c4_container, .c4_component,
             .c4_deployment, .c4_landscape] : List DiagramType),
       getDefaultFrameworkForType t = .d2) ∧
    (∀ t ∈ ([.sequence, .flowchart, .erd, .gantt, .state, .«class», .pie,
             .journey, .quadrant, .requirement, .gitgraph, .mindmap,
             .timeline, .sankey, .xy_chart, .block, .packet,
             .kanban] : List DiagramType),
       getDefaultFrameworkForType t = .mermaid) ∧
    (∀ t ∈ plantumlTypes, getDefaultFrameworkForType t = .plantuml) ∧
    (∀ s : DiagramSpecification, s.output_formats = [] →
      (autoDetectFrameworkAndFormats s).output_formats = [.svg]) ∧
    (∀ s : DiagramSpecification,
      (autoDetectFrameworkAndFormats s).output_formats ≠ []) ∧
    (∀ s : DiagramSpecification, s.type = .architecture →
      s.framework = none → s.output_formats = [] →
      extensionToFramework (pySuffix s.output_file) = none →
      (autoDetectFrameworkAndFormats s).framework = some .d2 ∧
      (autoDetectFrameworkAndFormats s).output_formats = [.svg]) := by
  refine ⟨?_, ?_, ?_, ?_, ?_, ?_, ?_⟩
  · intro s hnone
    constructor
    · intro fw hext
      simp only [autoDetectFrameworkAndFormats, hnone, hext, Option.getD]
      split <;> rfl
    · intro hext
      simp only [autoDetectFrameworkAndFormats, hnone, hext, Option.getD]
      split <;> rfl
  · intro t ht
    fin_cases ht <;> rfl
  · intro t ht
    fin_cases ht <;> rfl
  · intro t ht
    fin_cases ht <;> rfl
  · intro s hempty
    rw [autoDetect_formats]
    simp [hempty]
  · intro s
    rw [autoDetect_formats]
    split
    · simp
    · next h => simpa [List.isEmpty_iff] using h
  · intro s htype hnone hempty hext
    constructor
    · rw [autoDetect_framework_none s hnone, hext, htype]
      rfl
    · rw [autoDetect_formats]
      simp [hempty]

/-- Witness for `framework_resolution_order_and_format_default`: the
architecture job `archSpec` (unmapped `.txt` extension, no framework, no
formats) resolves to d2 with formats `[svg]`. -/
theorem framework_resolution_order_and_format_default_witness :
    (autoDetectFrameworkAndFormats archSpec).framework = some .d2 ∧
    (autoDetectFrameworkAndFormats archSpec).output_formats = [.svg] :=
  framework_resolution_order_and_format_default.2.2.2.2.2.2 archSpec
    rfl rfl rfl (by decide)

/-- Stripping never lengthens a string. -/
theorem pyStrip_length_le (s : Str) : (pyStrip s).length ≤ s.length := by
  unfold pyStrip
  calc (List.rdropWhile isPyWS (List.dropWhile isPyWS s)).length
      ≤ (List.dropWhile isPyWS s).length :=
        (List.rdropWhile_prefix _ _).length_le
    _ ≤ s.length := (s.dropWhile_suffix isPyWS).length_le

/-- C7 counterexample: `badFormatPRD` provides neither inline content nor
a file path, yet validation fails with only the `format` field error; the
cross-field exclusivity error is not reported because pydantic does not
run `mode="after"` model validators when a field fails. -/
theorem neither_source_without_cross_field_error :
    badFormatPRD.content = none ∧ badFormatPRD.file_path = none ∧
    validatePRDContent badFormatPRD = .error [.invalidFormat] :=
  ⟨rfl, rfl, rfl⟩

/-- C7 (amended): when every individual field of a requirements block
passes its own checks, validation fails with the cross-field exclusivity
error exactly when the block provides both inline content and a file path,
or neither; a block providing exactly one passes the exclusivity check.
A non-empty inline text of at most 1MB with no file reference is accepted,
and the empty requirements block is rejected. -/
theorem prd_exclusivity_after_field_stage :
    (∀ (r : PRDContent) (c f : Option Str) (fmt : Option Str)
        (secs : Option (List Str)),
        validateContentField r.content = .ok c →
        validateFilePathField r.file_path = .ok f →
        validateFormatField r.format = .ok fmt →
        validateSectionsField r.sections = .ok secs →
        (validatePRDContent r = .error [.missingContentSource] ↔
          c = none ∧ f = none) ∧
        (validatePRDContent r = .error [.bothContentSources] ↔
          c ≠ none ∧ f ≠ none) ∧
        ((c ≠ none ∧ f = none) ∨ (c = none ∧ f ≠ none) →
          validatePRDContent r = .ok ⟨c, f, fmt, secs⟩)) ∧
    (∀ s : Str, s ≠ [] → s.length ≤ 1048576 →
        validatePRDContent { content := some s } =
          .ok { content := some (pyStrip s) }) ∧
    validatePRDContent {} = .error [.missingContentSource] := by
  refine ⟨?_, ?_, rfl⟩
  · intro r c f fmt secs hc hf hfmt hsecs
    unfold validatePRDContent
    rw [hc, hf, hfmt, hsecs]
    rcases c with _ | c <;> rcases f with _ | f <;>
      simp
  · intro s hne hlen
    unfold validatePRDContent validateContentField validateFilePathField
      validateFormatField validateSectionsField
    have h1 : (pyStrip s).length ≤ 1048576 :=
      le_trans (pyStrip_length_le s) hlen
    simp [h1, prdFormats]

/-- Witness for `prd_exclusivity_after_field_stage` at a concrete block
that provides both sources: validation reports the cross-field error. -/
theorem prd_exclusivity_after_field_stage_witness :
    validatePRDContent
      { content := some "short prd".data,
        file_path := some "docs/prd.md".data } =
      .error [.bothContentSources] := by
  have h := (prd_exclusivity_after_field_stage.1
    { content := some "short prd".data,
      file_path := some "docs/prd.md".data }
    (some "short prd".data) (some "docs/prd.md".data)
    (some "markdown".data) none rfl rfl rfl rfl).2.1
  exact h.mpr (by simp)

/-- A file-path-only outcome of `validate_file_path_exists` satisfies the
two checks the validator enforces. -/
theorem validateFilePathField_ok_some (v : Option Str) (p : Str)
    (h : validateFilePathField v = .ok (some p)) :
    listHasSub "..".data p = false ∧ pySuffix p ≠ [] := by
  rcases v with _ | q
  · exact absurd h (by simp [validateFilePathField])
  · simp only [validateFilePathField] at h
    split_ifs at h with h1 h2 h3
    simp only [Except.ok.injEq, Option.some.injEq] at h
    subst h
    exact ⟨by simpa using h2, h3⟩

/-- A failing `file_path` field makes the whole block validation fail. -/
theorem validatePRDContent_fieldFail (r : PRDContent) (e : RecipeError)
    (h : validateFilePathField r.file_path = .error e) :
    ∀ d, validatePRDContent r ≠ .ok d := by
  intro d
  unfold validatePRDContent
  rw [h]
  rcases hc : validateContentField r.content with ec | c <;>
    rcases hfmt : validateFormatField r.format with e2 | fmt <;>
    rcases hsecs : validateSectionsField r.sections with e3 | secs <;>
    simp

/-- Inversion of a successful `PRDContent` validation: every field
validated and produced the stored components. -/
theorem validatePRDContent_ok_inv (r d : PRDContent)
    (h : validatePRDContent r = .ok d) :
    validateContentField r.content = .ok d.content ∧
    validateFilePathField r.file_path = .ok d.file_path ∧
    validateFormatField r.format = .ok d.format ∧
    validateSectionsField r.sections = .ok d.sections ∧
    ¬(d.content = none ∧ d.file_path = none) ∧
    ¬(d.content ≠ none ∧ d.file_path ≠ none) := by
  unfold validatePRDContent at h
  rcases hc : validateContentField r.content with ec | c <;> rw [hc] at h <;>
    rcases hf : validateFilePathField r.file_path with ef | f <;>
      rw [hf] at h <;>
    rcases hfmt : validateFormatField r.format with e2 | fmt <;>
      rw [hfmt] at h <;>
    rcases hsecs : validateSectionsField r.sections with e3 | secs <;>
      rw [hsecs] at h <;>
    dsimp only at h
  all_goals try exact Except.noConfusion h
  split_ifs at h with h1 h2
  rcases d with ⟨dc, df, dfmt, dsecs⟩
  simp only [Except.ok.injEq, PRDContent.mk.injEq] at h
  obtain ⟨e1, e2, e3, e4⟩ := h
  subst e1; subst e2; subst e3; subst e4
  exact ⟨rfl, rfl, rfl, rfl, h1, h2⟩

/-- C10: every requirements block that validates and carries a file-path
reference has a path with no "`..`" substring and a non-empty extension;
and every block whose (stripped) file path violates either condition fails
validation. -/
theorem file_path_invariants :
    (∀ (r d : PRDContent), validatePRDContent r = .ok d →
       ∀ p, d.file_path = some p →
         listHasSub "..".data p = false ∧ pySuffix p ≠ []) ∧
    (∀ (r : PRDContent) (p : Str), r.file_path = some p →
       (listHasSub "..".data (pyStrip p) = true ∨ pySuffix (pyStrip p) = []) →
       ∀ d, validatePRDContent r ≠ .ok d) := by
  constructor
  · intro r d hok p hp
    have hf := (validatePRDContent_ok_inv r d hok).2.1
    rw [hp] at hf
    exact validateFilePathField_ok_some r.file_path p hf
  · intro r p hp hbad d
    have : ∃ e, validateFilePathField r.file_path = .error e := by
      rw [hp]
      by_cases h1 : pathFieldOk (pyStrip p) = true
      · by_cases h2 : listHasSub "..".data (pyStrip p) = true
        · exact ⟨.pathTraversal, by simp [validateFilePathField, h1, h2]⟩
        · have hb : pySuffix (pyStrip p) = [] := by
            rcases hbad with hb | hb
            · exact absurd hb h2
            · exact hb
          exact ⟨.missingExtension,
            by simp [validateFilePathField, h1, h2, hb]⟩
      · exact ⟨.fieldError "file_path".data,
          by simp [validateFilePathField, h1]⟩
    rcases this with ⟨e, he⟩
    exact validatePRDContent_fieldFail r e he d

/-- Witness for `file_path_invariants`: a validated block holding the
path `docs/prd.md` satisfies both invariants. -/
theorem file_path_invariants_witness :
    listHasSub "..".data "docs/prd.md".data = false ∧
    pySuffix "docs/prd.md".data ≠ [] :=
  file_path_invariants.1 { file_path := some "docs/prd.md".data }
    { file_path := some "docs/prd.md".data } rfl "docs/prd.md".data rfl

/-- Stripping is idempotent. -/
theorem pyStrip_idem (s : Str) : pyStrip (pyStrip s) = pyStrip s := by
  unfold pyStrip
  have hdw : List.dropWhile isPyWS (List.dropWhile isPyWS s) =
      List.dropWhile isPyWS s := List.dropWhile_idempotent _ _
  set u := List.dropWhile isPyWS s with hu
  have h1 : List.dropWhile isPyWS (List.rdropWhile isPyWS u) =
      List.rdropWhile isPyWS u := by
    rcases hr : List.rdropWhile isPyWS u with _ | ⟨c, t⟩
    · simp
    · have hpre : List.rdropWhile isPyWS u <+: u :=
        List.rdropWhile_prefix _ _
      rw [hr] at hpre
      rcases hpre with ⟨t2, ht2⟩
      have hc : isPyWS c = false := by
        cases hcx : isPyWS c
        · rfl
        · exfalso
          rw [← ht2, List.cons_append, List.dropWhile_cons, hcx] at hdw
          simp only [if_true] at hdw
          have := ((t ++ t2).dropWhile_suffix isPyWS).length_le
          rw [hdw] at this
          simp at this
      simp [List.dropWhile_cons, hc]
  rw [h1, List.rdropWhile_idempotent]

/-- Stripping every element twice is the same as once. -/
theorem map_pyStrip_idem (l : List Str) :
    (l.map pyStrip).map pyStrip = l.map pyStrip := by
  rw [List.map_map]
  exact List.map_congr_left (fun x _ => pyStrip_idem x)

/-- A character of the normalized-type class is fixed by lowering and
underscoring and is not whitespace. -/
theorem typeChar_fixed (c : Char) (h : isTypeChar c = true) :
    lowerChar c = c ∧ underscoreChar c = c ∧ isPyWS c = false := by
  have hn : (97 ≤ c.toNat ∧ c.toNat ≤ 122) ∨
      (48 ≤ c.toNat ∧ c.toNat ≤ 57) ∨ c.toNat = 95 := by
    simp only [isTypeChar, isLowerAlpha, isDigitChar, Bool.or_eq_true,
      Bool.and_eq_true, decide_eq_true_eq] at h
    rcases h with (h | h) | h
    · exact Or.inl h
    · exact Or.inr (Or.inl h)
    · subst h
      exact Or.inr (Or.inr rfl)
  refine ⟨?_, ?_, ?_⟩
  · rw [lowerChar, if_neg]
    simp only [isUpperAlpha, Bool.and_eq_true, decide_eq_true_eq, not_and]
    omega
  · rw [underscoreChar, if_neg]
    intro he
    have := congrArg Char.toNat he
    simp only [show (' ').toNat = 32 from rfl] at this
    omega
  · simp only [isPyWS, Bool.or_eq_false_iff, decide_eq_false_iff_not]
    omega

/-- A string matching the normalized-type pattern is fixed by stripping,
lowering and underscoring, and is non-empty. -/
theorem typePattern_fixed (n : Str) (h : matchesTypePattern n = true) :
    pyStrip n = n ∧ pyLower n = n ∧ pyUnderscore n = n ∧ n ≠ [] := by
  rcases n with _ | ⟨c, rest⟩
  · simp [matchesTypePattern] at h
  · simp only [matchesTypePattern, Bool.and_eq_true] at h
    obtain ⟨h1, h2⟩ := h
    have hall : ∀ x ∈ (c :: rest), isTypeChar x = true := by
      intro x hx
      rcases List.mem_cons.mp hx with rfl | hx
      · simp [isTypeChar, h1]
      · exact List.all_eq_true.mp h2 x hx
    refine ⟨?_, ?_, ?_, by simp⟩
    · unfold pyStrip
      have hdw : List.dropWhile isPyWS (c :: rest) = c :: rest := by
        rw [List.dropWhile_cons]
        simp [(typeChar_fixed c (hall c (by simp))).2.2]
      rw [hdw, List.rdropWhile_eq_self_iff]
      intro hl
      have hmem := List.getLast_mem hl
      simp [(typeChar_fixed _ (hall _ hmem)).2.2]
    · have : List.map lowerChar (c :: rest) = List.map id (c :: rest) :=
        List.map_congr_left (fun x hx => (typeChar_fixed x (hall x hx)).1)
      simpa [pyLower] using this
    · have : List.map underscoreChar (c :: rest) = List.map id (c :: rest) :=
        List.map_congr_left (fun x hx => (typeChar_fixed x (hall x hx)).2.1)
      simpa [pyUnderscore] using this

/-- Re-validating a validated `content` field is the identity. -/
theorem validateContentField_stable (v w : Option Str)
    (h : validateContentField v = .ok w) :
    validateContentField w = .ok w := by
  rcases v with _ | c
  · simp only [validateContentField, Except.ok.injEq] at h
    subst h
    rfl
  · simp only [validateContentField] at h
    split_ifs at h with h1
    simp only [Except.ok.injEq] at h
    subst h
    simp [validateContentField, pyStrip_idem, h1]

/-- Re-validating a validated `file_path` field is the identity. -/
theorem validateFilePathField_stable (v w : Option Str)
    (h : validateFilePathField v = .ok w) :
    validateFilePathField w = .ok w := by
  rcases v with _ | p
  · simp only [validateFilePathField, Except.ok.injEq] at h
    subst h
    rfl
  · simp only [validateFilePathField] at h
    split_ifs at h with h1 h2 h3
    simp only [Except.ok.injEq] at h
    subst h
    simp [validateFilePathField, pyStrip_idem, h1, h2, h3]

/-- Re-validating a validated `format` field is the identity. -/
theorem validateFormatField_stable (v w : Option Str)
    (h : validateFormatField v = .ok w) :
    validateFormatField w = .ok w := by
  rcases v with _ | f
  · simp only [validateFormatField, Except.ok.injEq] at h
    subst h
    rfl
  · simp only [validateFormatField] at h
    split_ifs at h with h1
    simp only [Except.ok.injEq] at h
    subst h
    simp [validateFormatField, h1]

/-- Re-validating a validated `sections` field is the identity. -/
theorem validateSectionsField_stable (v w : Option (List Str))
    (h : validateSectionsField v = .ok w) :
    validateSectionsField w = .ok w := by
  rcases v with _ | l
  · simp only [validateSectionsField, Except.ok.injEq] at h
    subst h
    rfl
  · simp only [validateSectionsField] at h
    split_ifs at h with h1
    simp only [Except.ok.injEq] at h
    subst h
    rw [map_pyStrip_idem]
    simp only [validateSectionsField, map_pyStrip_idem]
    rw [if_neg h1]

/-- Re-validating a validated bounded-text field is the identity. -/
theorem validateBoundedText_stable (field : Str) (bound : Nat)
    (v w : Option Str) (h : validateBoundedText field bound v = .ok w) :
    validateBoundedText field bound w = .ok w := by
  rcases v with _ | s
  · simp only [validateBoundedText, Except.ok.injEq] at h
    subst h
    rfl
  · simp only [validateBoundedText] at h
    split_ifs at h with h1
    simp only [Except.ok.injEq] at h
    subst h
    simp [validateBoundedText, pyStrip_idem, h1]

/-- Re-validating a validated enumeration field is the identity. -/
theorem validateEnumField_stable (field : Str) (valid : List Str)
    (v w : Option Str) (h : validateEnumField field valid v = .ok w) :
    validateEnumField field valid w = .ok w := by
  rcases v with _ | s
  · simp only [validateEnumField, Except.ok.injEq] at h
    subst h
    rfl
  · simp only [validateEnumField] at h
    split_ifs at h with h1
    simp only [Except.ok.injEq] at h
    subst h
    simp [validateEnumField, h1]

/-- Re-validating a validated bounded-integer field is the identity. -/
theorem validateIntRange_stable (field : Str) (lo hi : Int)
    (v w : Option Int) (h : validateIntRange field lo hi v = .ok w) :
    validateIntRange field lo hi w = .ok w := by
  rcases v with _ | n
  · simp only [validateIntRange, Except.ok.injEq] at h
    subst h
    rfl
  · simp only [validateIntRange] at h
    split_ifs at h with h1
    simp only [Except.ok.injEq] at h
    subst h
    simp [validateIntRange, h1]

/-- Re-validating a validated positive-integer field is the identity. -/
theorem validatePositiveInt_stable (field : Str) (v w : Option Int)
    (h : validatePositiveInt field v = .ok w) :
    validatePositiveInt field w = .ok w := by
  rcases v with _ | n
  · simp only [validatePositiveInt, Except.ok.injEq] at h
    subst h
    rfl
  · simp only [validatePositiveInt] at h
    split_ifs at h with h1
    simp only [Except.ok.injEq] at h
    subst h
    simp [validatePositiveInt, h1]

/-- Normalizing a plain string-list field twice is the same as once. -/
theorem normalizeStrList_idem (v : Option (List Str)) :
    normalizeStrList (normalizeStrList v) = normalizeStrList v := by
  rcases v with _ | l
  · rfl
  · simp only [normalizeStrList, Option.map_some']
    rw [map_pyStrip_idem]

/-- Re-validating a validated `description` field is the identity. -/
theorem validateDescriptionField_stable (v w : Option Str)
    (h : validateDescriptionField v = .ok w) :
    validateDescriptionField w = .ok w := by
  rcases v with _ | d
  · simp only [validateDescriptionField, Except.ok.injEq] at h
    subst h
    rfl
  · simp only [validateDescriptionField] at h
    split_ifs at h with h1
    simp only [Except.ok.injEq] at h
    subst h
    simp [validateDescriptionField, pyStrip_idem, h1]

/-- Re-validating a validated `type` field is the identity. -/
theorem validateTypeField_stable (v w : Str)
    (h : validateTypeField v = .ok w) :
    validateTypeField w = .ok w := by
  simp only [validateTypeField] at h
  split_ifs at h with h1 h2
  simp only [Except.ok.injEq] at h
  subst h
  obtain ⟨hs, hl, hu, hne⟩ := typePattern_fixed _ h2
  have hw100 : (pyUnderscore (pyLower (pyStrip v))).length ≤ 100 := by
    have hlen : (pyUnderscore (pyLower (pyStrip v))).length =
        (pyStrip v).length := by
      simp [pyUnderscore, pyLower]
    rw [hlen]
    exact h1.2
  simp only [validateTypeField, hs, hl, hu]
  rw [if_neg (not_not_intro ⟨hne, hw100⟩), if_pos h2]

/-- Re-validating a validated `framework_preference` field is the
identity. -/
theorem validateFrameworkPreferenceField_stable (v w : Option Str)
    (h : validateFrameworkPreferenceField v = .ok w) :
    validateFrameworkPreferenceField w = .ok w := by
  rcases v with _ | f
  · simp only [validateFrameworkPreferenceField, Except.ok.injEq] at h
    subst h
    rfl
  · simp only [validateFrameworkPreferenceField] at h
    split_ifs at h with h1
    simp only [Except.ok.injEq] at h
    subst h
    generalize hg : pyLower (pyStrip f) = g at h1 ⊢
    fin_cases h1 <;> rfl

/-- Re-validating a validated requirements block is the identity. -/
theorem validatePRDContent_stable (r d : PRDContent)
    (h : validatePRDContent r = .ok d) :
    validatePRDContent d = .ok d := by
  obtain ⟨hc, hf, hfmt, hsecs, hx1, hx2⟩ := validatePRDContent_ok_inv r d h
  unfold validatePRDContent
  rw [validateContentField_stable _ _ hc, validateFilePathField_stable _ _ hf,
    validateFormatField_stable _ _ hfmt, validateSectionsField_stable _ _ hsecs]
  dsimp only
  rw [if_neg hx1, if_neg hx2]

/-- Re-validating a validated diagram request is the identity. -/
theorem validateDiagramRequest_stable (r d : DiagramRequest)
    (h : validateDiagramRequest r = .ok d) :
    validateDiagramRequest d = .ok d := by
  unfold validateDiagramRequest at h
  rcases ht : validateTypeField r.type with e1 | t <;> rw [ht] at h <;>
    rcases hd : validateDescriptionField r.description with e2 | dd <;>
      rw [hd] at h <;>
    rcases hf : validateFrameworkPreferenceField r.framework_preference
        with e3 | fp <;>
      rw [hf] at h <;>
    dsimp only at h
  all_goals try exact Except.noConfusion h
  rcases d with ⟨d1, d2, d3⟩
  simp only [Except.ok.injEq, DiagramRequest.mk.injEq] at h
  obtain ⟨e1, e2, e3⟩ := h
  subst e1; subst e2; subst e3
  unfold validateDiagramRequest
  rw [validateTypeField_stable _ _ ht, validateDescriptionField_stable _ _ hd,
    validateFrameworkPreferenceField_stable _ _ hf]

/-- Re-validating validated documentation instructions is the identity. -/
theorem validateDocumentationInstructions_stable
    (r d : DocumentationInstructions)
    (h : validateDocumentationInstructions r = .ok d) :
    validateDocumentationInstructions d = .ok d := by
  unfold validateDocumentationInstructions at h
  rcases h1 : validateEnumField "style".data docStyles r.style
      with e1 | st <;> rw [h1] at h <;>
    rcases h2 : validateBoundedText "audience".data 255 r.audience
        with e2 | au <;> rw [h2] at h <;>
    rcases h3 : validateSectionsField r.sections with e3 | secs <;>
      rw [h3] at h <;>
    rcases h4 : validateEnumField "detail_level".data detailLevels
        r.detail_level with e4 | dl <;> rw [h4] at h <;>
    dsimp only at h
  all_goals try exact Except.noConfusion h
  rcases d with ⟨d1, d2, d3, d4, d5, d6⟩
  simp only [Except.ok.injEq, DocumentationInstructions.mk.injEq] at h
  obtain ⟨e1, e2, e3, e4, e5, e6⟩ := h
  subst e1; subst e2; subst e3; subst e4; subst e5; subst e6
  unfold validateDocumentationInstructions
  rw [validateEnumField_stable _ _ _ _ h1, validateBoundedText_stable _ _ _ _ h2,
    validateSectionsField_stable _ _ h3, validateEnumField_stable _ _ _ _ h4]

/-- Re-validating validated presentation instructions is the identity. -/
theorem validatePresentationInstructions_stable
    (r d : PresentationInstructions)
    (h : validatePresentationInstructions r = .ok d) :
    validatePresentationInstructions d = .ok d := by
  unfold validatePresentationInstructions at h
  rcases h1 : validateBoundedText "audience".data 255 r.audience
      with e1 | au <;> rw [h1] at h <;>
    rcases h2 : validateIntRange "max_slides".data 5 100 r.max_slides
        with e2 | ms <;> rw [h2] at h <;>
    rcases h3 : validateEnumField "style".data presentationStyles r.style
        with e3 | st <;> rw [h3] at h <;>
    rcases h4 : validatePositiveInt "time_limit".data r.time_limit
        with e4 | tl <;> rw [h4] at h <;>
    dsimp only at h
  all_goals try exact Except.noConfusion h
  rcases d with ⟨d1, d2, d3, d4, d5, d6⟩
  simp only [Except.ok.injEq, PresentationInstructions.mk.injEq] at h
  obtain ⟨e1, e2, e3, e4, e5, e6⟩ := h
  subst e1; subst e2; subst e3; subst e4; subst e5; subst e6
  unfold validatePresentationInstructions
  rw [validateBoundedText_stable _ _ _ _ h1, validateIntRange_stable _ _ _ _ _ h2,
    validateEnumField_stable _ _ _ _ h3, validatePositiveInt_stable _ _ _ h4]
  dsimp only
  rw [normalizeStrList_idem]

/-- The per-element extractor used by `validateDiagramsField`. -/
theorem mem_validateDiagramsField_ok (l lo : List DiagramRequest)
    (h : validateDiagramsField l = .ok lo) :
    ∀ d ∈ lo, validateDiagramRequest d = .ok d := by
  intro d hd
  simp only [validateDiagramsField] at h
  split_ifs at h with h1 h2
  rcases hfd : firstDuplicate ((l.map validateDiagramRequest).filterMap
      (fun r => match r with | .ok d => some d | .error _ => none)) []
    with _ | t <;> rw [hfd] at h <;> dsimp only at h
  · simp only [Except.ok.injEq] at h
    rw [← h] at hd
    obtain ⟨r, hrl, hre⟩ := List.mem_filterMap.mp hd
    obtain ⟨x, hxl, hxr⟩ := List.mem_map.mp hrl
    cases r with
    | error e => exact absurd hre (by simp)
    | ok y =>
        simp only [Option.some.injEq] at hre
        subst hre
        exact validateDiagramRequest_stable x _ hxr
  · exact Except.noConfusion h

/-- Extracting the payloads of a list of `ok` results gives the payloads. -/
theorem filterMap_ok_id (lo : List DiagramRequest) :
    (lo.map (Except.ok (ε := List RecipeError))).filterMap
      (fun r => match r with
        | .ok (d : DiagramRequest) => some d | .error _ => none) = lo := by
  induction lo with
  | nil => rfl
  | cons a t ih => simp [ih]

/-- Re-validating a validated `diagrams` list is the identity. -/
theorem validateDiagramsField_stable (l lo : List DiagramRequest)
    (h : validateDiagramsField l = .ok lo) :
    validateDiagramsField lo = .ok lo := by
  have hmem := mem_validateDiagramsField_ok l lo h
  have hmap : lo.map validateDiagramRequest =
      lo.map (Except.ok (ε := List RecipeError)) :=
    List.map_congr_left (fun d hd => hmem d hd)
  have hfm := filterMap_ok_id lo
  have hlen : ¬ lo.length < 1 := by
    simp only [validateDiagramsField] at h
    split_ifs at h with h1 h2
    rcases hfd : firstDuplicate ((l.map validateDiagramRequest).filterMap
        (fun r => match r with | .ok d => some d | .error _ => none)) []
      with _ | t <;> rw [hfd] at h <;> dsimp only at h
    · simp only [Except.ok.injEq] at h
      rw [← h]
      exact h2
    · exact Except.noConfusion h
  have hdup : firstDuplicate lo [] = none := by
    simp only [validateDiagramsField] at h
    split_ifs at h with h1 h2
    rcases hfd : firstDuplicate ((l.map validateDiagramRequest).filterMap
        (fun r => match r with | .ok d => some d | .error _ => none)) []
      with _ | t <;> rw [hfd] at h <;> dsimp only at h
    · simp only [Except.ok.injEq] at h
      rw [← h]
      exact hfd
    · exact Except.noConfusion h
  simp only [validateDiagramsField, hmap]
  have herrs : ((lo.map (Except.ok (ε := List RecipeError))).map errsOf) =
      lo.map (fun _ => []) := by
    rw [List.map_map]
    rfl
  rw [herrs, hfm]
  rw [if_neg (by simp), if_neg hlen, hdup]

/-- Re-validating a validated optional documentation block is the
identity. -/
theorem validateDocumentationOpt_stable
    (v w : Option DocumentationInstructions)
    (h : validateDocumentationOpt v = .ok w) :
    validateDocumentationOpt w = .ok w := by
  rcases v with _ | dd
  · simp only [validateDocumentationOpt, Except.ok.injEq] at h
    subst h
    rfl
  · simp only [validateDocumentationOpt] at h
    rcases hv : validateDocumentationInstructions dd with e | y <;>
      rw [hv] at h
    · exact Except.noConfusion h
    · simp only [Except.map, Except.ok.injEq] at h
      subst h
      simp only [validateDocumentationOpt,
        validateDocumentationInstructions_stable dd y hv]
      rfl

/-- Re-validating a validated optional presentation block is the
identity. -/
theorem validatePresentationOpt_stable
    (v w : Option PresentationInstructions)
    (h : validatePresentationOpt v = .ok w) :
    validatePresentationOpt w = .ok w := by
  rcases v with _ | pp
  · simp only [validatePresentationOpt, Except.ok.injEq] at h
    subst h
    rfl
  · simp only [validatePresentationOpt] at h
    rcases hv : validatePresentationInstructions pp with e | y <;>
      rw [hv] at h
    · exact Except.noConfusion h
    · simp only [Except.map, Except.ok.injEq] at h
      subst h
      simp only [validatePresentationOpt,
        validatePresentationInstructions_stable pp y hv]
      rfl

/-- Re-validating validated user instructions is the identity. -/
theorem validateUserInstructions_stable (r d : UserInstructions)
    (h : validateUserInstructions r = .ok d) :
    validateUserInstructions d = .ok d := by
  unfold validateUserInstructions at h
  rcases h1 : validateDiagramsField r.diagrams with e1 | dg <;>
    rw [h1] at h <;>
    rcases h2 : validateDocumentationOpt r.documentation with e2 | doc <;>
      rw [h2] at h <;>
    rcases h3 : validatePresentationOpt r.presentation with e3 | pres <;>
      rw [h3] at h <;>
    dsimp only at h
  all_goals try exact Except.noConfusion h
  rcases d with ⟨d1, d2, d3, d4, d5⟩
  simp only [Except.ok.injEq, UserInstructions.mk.injEq] at h
  obtain ⟨e1, e2, e3, e4, e5⟩ := h
  subst e1; subst e2; subst e3; subst e4; subst e5
  unfold validateUserInstructions
  rw [validateDiagramsField_stable _ _ h1,
    validateDocumentationOpt_stable _ _ h2,
    validatePresentationOpt_stable _ _ h3]
  dsimp only
  rw [normalizeStrList_idem, normalizeStrList_idem]

/-- Normalizing preferences twice is the same as once. -/
theorem normalizePreferences_idem (p : Preferences) :
    normalizePreferences (normalizePreferences p) =
      normalizePreferences p := by
  rcases p with ⟨p1, p2, p3, p4, p5⟩
  simp only [normalizePreferences, Preferences.mk.injEq]
  refine ⟨?_, ?_, ?_, ?_, ?_⟩
  · cases p1 <;> simp [pyStrip_idem]
  · cases p2 <;> simp [pyStrip_idem]
  · cases p3 <;> simp [pyStrip_idem]
  · cases p4 <;> simp [pyStrip_idem]
  · cases p5 with
    | none => rfl
    | some l =>
        simp only [Option.map_some', Option.some.injEq, List.map_map]
        exact List.map_congr_left (fun kv _ => by
          simp [Function.comp, pyStrip_idem])

/-- Normalizing metadata twice is the same as once. -/
theorem normalizeMetadata_idem (m : List (Str × JsonVal)) :
    normalizeMetadata (normalizeMetadata m) = normalizeMetadata m := by
  simp only [normalizeMetadata, List.map_map]
  exact List.map_congr_left (fun kv _ => by
    simp [Function.comp, pyStrip_idem])

/-- Re-validating a validated `name` field is the identity. -/
theorem validateNameField_stable (v w : Str)
    (h : validateNameField v = .ok w) : validateNameField w = .ok w := by
  simp only [validateNameField] at h
  split_ifs at h with h1 h2
  simp only [Except.ok.injEq] at h
  subst h
  simp [validateNameField, pyStrip_idem, h1, h2]

/-- Re-validating a validated `version` field is the identity. -/
theorem validateVersionField_stable (v w : Str)
    (h : validateVersionField v = .ok w) : validateVersionField w = .ok w := by
  simp only [validateVersionField] at h
  split_ifs at h with h1
  simp only [Except.ok.injEq] at h
  subst h
  simp [validateVersionField, pyStrip_idem, h1]

/-- Normalizing an optional preferences block twice is the same as once. -/
theorem optPreferences_idem (v : Option Preferences) :
    (v.map normalizePreferences).map normalizePreferences =
      v.map normalizePreferences := by
  cases v <;> simp [normalizePreferences_idem]

/-- Normalizing an optional metadata block twice is the same as once. -/
theorem optMetadata_idem (v : Option (List (Str × JsonVal))) :
    (v.map normalizeMetadata).map normalizeMetadata =
      v.map normalizeMetadata := by
  cases v <;> simp [normalizeMetadata_idem]

/-- `model_dump` writes the stored fields back unchanged. -/
theorem serializeUserRecipe_eq (d : UserRecipe) :
    serializeUserRecipe d = d := by
  rcases d with ⟨n, v, ⟨c, f, fmt, secs⟩, ⟨dg, doc, pres, fa, ex⟩, prefs, md⟩
  simp only [serializeUserRecipe, UserRecipe.mk.injEq,
    UserInstructions.mk.injEq]
  have hid : (fun (d : DiagramRequest) =>
      DiagramRequest.mk d.type d.description d.framework_preference) = id :=
    funext (fun x => by cases x; rfl)
  simp [hid]

/-- Re-validating a validated user recipe is the identity. -/
theorem validateUserRecipe_stable (r d : UserRecipe)
    (h : validateUserRecipe r = .ok d) :
    validateUserRecipe d = .ok d := by
  unfold validateUserRecipe at h
  rcases h1 : validateNameField r.name with e1 | nm <;> rw [h1] at h <;>
    rcases h2 : validateVersionField r.version with e2 | ver <;>
      rw [h2] at h <;>
    rcases h3 : validatePRDContent r.prd with e3 | prd <;> rw [h3] at h <;>
    rcases h4 : validateUserInstructions r.instructions with e4 | ins <;>
      rw [h4] at h <;>
    dsimp only at h
  all_goals try exact Except.noConfusion h
  split_ifs at h with hdg
  rcases d with ⟨d1, d2, d3, d4, d5, d6⟩
  simp only [Except.ok.injEq, UserRecipe.mk.injEq] at h
  obtain ⟨e1, e2, e3, e4, e5, e6⟩ := h
  subst e1; subst e2; subst e3; subst e4; subst e5; subst e6
  unfold validateUserRecipe
  rw [validateNameField_stable _ _ h1, validateVersionField_stable _ _ h2,
    validatePRDContent_stable _ _ h3, validateUserInstructions_stable _ _ h4]
  dsimp only
  rw [if_neg hdg, optPreferences_idem, optMetadata_idem]

/-- C9: for a valid intent document, serializing and re-validating
succeeds and returns the document unchanged (all normalizations are
idempotent). -/
theorem validate_serialize_roundtrip (r d : UserRecipe)
    (h : validateUserRecipe r = .ok d) :
    validateUserRecipe (serializeUserRecipe d) = .ok d := by
  rw [serializeUserRecipe_eq]
  exact validateUserRecipe_stable r d h

/-- Witness for `validate_serialize_roundtrip` at the concrete document
`billingRecipe`, which validates to itself. -/
theorem validate_serialize_roundtrip_witness :
    validateUserRecipe (serializeUserRecipe billingRecipe) =
      .ok billingRecipe :=
  validate_serialize_roundtrip billingRecipe billingRecipe (by rfl)

/-- C1 counterexample: `badPlan` violates both cross-collection checks,
yet the single validation call reports only the set-equality error; the
content-file subset violation (present per `firstInvalidContent`) is not
in the returned error list, which has exactly one entry. -/
theorem multi_violation_reports_single_error :
    crossValidateProcessedRecipe badPlan =
      .error [.inconsistentRefs ["d1".data] ["d2".data]] ∧
    firstInvalidContent badPlan.content_files (specIds badPlan) =
      some ("docs/overview.md".data, ["dX".data]) := by
  constructor
  · rfl
  · rfl

/-- C1 (amended): the cross-collection phase stops at the first violated
check. A set-equality violation alone is reported (one entry, even when
content files also reference unknown identifiers); only when the sets
agree does the subset check run, reporting the first offending content
file; the error list never holds more than one entry. -/
theorem cross_checks_report_first_failure_only :
    (∀ (r : ProcessedRecipe) (e : ConsistencyError),
       validateDiagramConsistency r = .error e →
       crossValidateProcessedRecipe r = .error [e]) ∧
    (∀ (r : ProcessedRecipe) (e : ConsistencyError),
       validateDiagramConsistency r = .ok r →
       validateContentDiagramRefs r = .error e →
       crossValidateProcessedRecipe r = .error [e]) ∧
    (∀ (r : ProcessedRecipe) (es : List ConsistencyError),
       crossValidateProcessedRecipe r = .error es → es.length = 1) := by
  refine ⟨?_, ?_, ?_⟩
  · intro r e h
    simp [crossValidateProcessedRecipe, h]
  · intro r e h1 h2
    simp [crossValidateProcessedRecipe, h1, h2]
  · intro r es h
    unfold crossValidateProcessedRecipe at h
    rcases h1 : validateDiagramConsistency r with e1 | r1 <;> rw [h1] at h
    · simp only [Except.error.injEq] at h
      subst h
      rfl
    · have hr : r1 = r := by
        unfold validateDiagramConsistency at h1
        split_ifs at h1
        simpa using h1.symm
      rw [hr] at h
      dsimp only at h
      rcases h2 : validateContentDiagramRefs r with e2 | r2 <;>
        rw [h2] at h <;> dsimp only at h
      · simp only [Except.error.injEq] at h
        subst h
        rfl
      · exact Except.noConfusion h

/-- Witness for `cross_checks_report_first_failure_only` at `badPlan`:
the consistency error alone is the whole error list. -/
theorem cross_checks_report_first_failure_only_witness :
    crossValidateProcessedRecipe badPlan =
      .error [.inconsistentRefs ["d1".data] ["d2".data]] :=
  cross_checks_report_first_failure_only.1 badPlan
    (.inconsistentRefs ["d1".data] ["d2".data]) rfl

/-- Membership in `missingRefs`: exactly the job identifiers absent from
the reference set. -/
theorem mem_missingRefs (r : ProcessedRecipe) (x : Str) :
    x ∈ missingRefs r ↔ (x ∈ specIds r ∧ x ∉ refIds r) := by
  simp [missingRefs, List.mem_filter]

/-- Membership in `extraRefs`: exactly the reference identifiers absent
from the job set. -/
theorem mem_extraRefs (r : ProcessedRecipe) (x : Str) :
    x ∈ extraRefs r ↔ (x ∈ refIds r ∧ x ∉ specIds r) := by
  simp [extraRefs, List.mem_filter]

/-- C4: whenever the job identifier set differs from the reference
identifier set, the consistency validator fails, and its single reported
error carries exactly the identifiers in the job set but not the
reference set and exactly those in the reference set but not the job set,
with no omissions. -/
theorem consistency_error_names_all_diffs (r : ProcessedRecipe)
    (hne : ¬ (∀ x, x ∈ specIds r ↔ x ∈ refIds r)) :
    validateDiagramConsistency r =
      .error (.inconsistentRefs (missingRefs r) (extraRefs r)) ∧
    crossValidateProcessedRecipe r =
      .error [.inconsistentRefs (missingRefs r) (extraRefs r)] ∧
    (∀ x, x ∈ missingRefs r ↔ (x ∈ specIds r ∧ x ∉ refIds r)) ∧
    (∀ x, x ∈ extraRefs r ↔ (x ∈ refIds r ∧ x ∉ specIds r)) := by
  have hfail : ¬ (missingRefs r = [] ∧ extraRefs r = []) := by
    intro ⟨hm, he⟩
    apply hne
    intro x
    constructor
    · intro hx
      by_contra hnx
      have : x ∈ missingRefs r := (mem_missingRefs r x).mpr ⟨hx, hnx⟩
      rw [hm] at this
      exact absurd this (List.not_mem_nil x)
    · intro hx
      by_contra hnx
      have : x ∈ extraRefs r := (mem_extraRefs r x).mpr ⟨hx, hnx⟩
      rw [he] at this
      exact absurd this (List.not_mem_nil x)
  have h1 : validateDiagramConsistency r =
      .error (.inconsistentRefs (missingRefs r) (extraRefs r)) := by
    unfold validateDiagramConsistency
    rw [if_neg hfail]
  exact ⟨h1, by simp [crossValidateProcessedRecipe, h1],
    mem_missingRefs r, mem_extraRefs r⟩

/-- Witness for `consistency_error_names_all_diffs` at `badPlan`. -/
theorem consistency_error_names_all_diffs_witness :
    validateDiagramConsistency badPlan =
      .error (.inconsistentRefs (missingRefs badPlan) (extraRefs badPlan)) ∧
    crossValidateProcessedRecipe badPlan =
      .error [.inconsistentRefs (missingRefs badPlan) (extraRefs badPlan)] ∧
    (∀ x, x ∈ missingRefs badPlan ↔
      (x ∈ specIds badPlan ∧ x ∉ refIds badPlan)) ∧
    (∀ x, x ∈ extraRefs badPlan ↔
      (x ∈ refIds badPlan ∧ x ∉ specIds badPlan)) :=
  consistency_error_names_all_diffs badPlan (by
    intro hall
    have := (hall "d1".data).mp (by decide)
    revert this
    decide)

/-- C8: the generation-time check fails exactly when the timestamp's
absolute instant (a naive timestamp read as UTC) is strictly after the
current absolute time; on success the (normalized) timestamp is returned;
and rendering "now" in any timezone offset leaves the comparison outcome
unchanged, so comparing in the timestamp's own timezone is sound. -/
theorem generation_time_check (nowAbs : Int) (v : PyDatetime) :
    (validateGenerationTime nowAbs v =
        .error "Generation time cannot be in the future".data ↔
      utcInstant v > nowAbs) ∧
    (validateGenerationTime nowAbs v = .ok (replaceNaiveUTC v) ↔
      ¬ utcInstant v > nowAbs) ∧
    (∀ z : Int,
      dtGt (replaceNaiveUTC v) { naive := nowAbs + z, tz := some z } =
        decide (utcInstant v > nowAbs)) := by
  have hz : ∀ z : Int,
      dtGt (replaceNaiveUTC v) { naive := nowAbs + z, tz := some z } =
        decide (utcInstant v > nowAbs) := by
    intro z
    rcases v with ⟨n, _ | off⟩ <;>
      simp only [dtGt, replaceNaiveUTC, utcInstant, Option.getD_some,
        reduceCtorEq, if_true, if_false, decide_eq_decide] <;>
      constructor <;> intro h <;> omega
  have hval : validateGenerationTime nowAbs v =
      if utcInstant v > nowAbs then
        .error "Generation time cannot be in the future".data
      else .ok (replaceNaiveUTC v) := by
    unfold validateGenerationTime
    have hcmp : dtGt (replaceNaiveUTC v)
        { naive := nowAbs + (replaceNaiveUTC v).tz.getD 0,
          tz := (replaceNaiveUTC v).tz } =
          decide (utcInstant v > nowAbs) := by
      rcases v with ⟨n, _ | off⟩ <;>
        simp only [dtGt, replaceNaiveUTC, utcInstant, Option.getD_some,
          reduceCtorEq, if_true, if_false, decide_eq_decide] <;>
        constructor <;> intro h <;> omega
    dsimp only
    rw [hcmp]
    simp only [decide_eq_true_eq]
  refine ⟨?_, ?_, hz⟩ <;> rw [hval] <;>
    by_cases hgt : utcInstant v > nowAbs <;> simp [hgt]

/-! ### Round-trip of `loads` after `dumps` -/

/-- `Char.ofNat` inverts `Char.toNat` on valid code points. -/
theorem toNat_ofNat_valid (n : Nat) (h : Nat.isValidChar n) :
    (Char.ofNat n).toNat = n := by
  unfold Char.ofNat Char.toNat
  rw [dif_pos h]
  rfl

/-- Small code points are valid. -/
theorem isValidChar_small (n : Nat) (h : n < 55296) : Nat.isValidChar n :=
  Or.inl h

/-- Whitespace-only prefixes are skipped. -/
theorem skipWS_append_ws (pre s : Str) (h : wsOnly pre) :
    skipWS (pre ++ s) = skipWS s := by
  induction pre with
  | nil => rfl
  | cons c t ih =>
      have hc : isJsonWS c = true := h c (by simp)
      simp only [List.cons_append, skipWS, List.dropWhile_cons, hc, if_true]
      exact ih (fun x hx => h x (by simp [hx]))

/-- A non-whitespace head stops the skip. -/
theorem skipWS_cons_neg (c : Char) (t : Str) (h : isJsonWS c = false) :
    skipWS (c :: t) = c :: t := by
  simp [skipWS, List.dropWhile_cons, h]

/-- Indentation runs are whitespace. -/
theorem wsOnly_spaces (n : Nat) : wsOnly (spaces n) := by
  intro c hc
  rw [spaces, List.mem_replicate] at hc
  rw [hc.2]
  rfl

/-- Newline plus indentation before a non-whitespace character skips to
that character. -/
theorem skipWS_indent (n : Nat) (c : Char) (t : Str)
    (h : isJsonWS c = false) :
    skipWS ('\n' :: (spaces n ++ (c :: t))) = c :: t := by
  have h1 : wsOnly ('\n' :: spaces n) := by
    intro x hx
    rcases List.mem_cons.mp hx with rfl | hx
    · rfl
    · exact wsOnly_spaces n x hx
  calc skipWS ('\n' :: (spaces n ++ (c :: t)))
      = skipWS (('\n' :: spaces n) ++ (c :: t)) := by simp
    _ = skipWS (c :: t) := skipWS_append_ws _ _ h1
    _ = c :: t := skipWS_cons_neg c t h

/-- `digitChar` code points. -/
theorem digitChar_toNat (n : Nat) (h : n < 10) :
    (digitChar n).toNat = 48 + n := by
  rw [digitChar, toNat_ofNat_valid]
  exact isValidChar_small _ (by omega)

/-- `digitChar` produces digits. -/
theorem isDigitChar_digitChar (n : Nat) (h : n < 10) :
    isDigitChar (digitChar n) = true := by
  simp only [isDigitChar, digitChar_toNat n h, Bool.and_eq_true,
    decide_eq_true_eq]
  omega

/-- The fuel argument of `natToDigitsAux` is irrelevant once sufficient. -/
theorem natToDigitsAux_fuel (n : Nat) : ∀ f1 f2 : Nat, n < f1 → n < f2 →
    natToDigitsAux f1 n = natToDigitsAux f2 n := by
  induction n using Nat.strong_induction_on with
  | _ n ih =>
    intro f1 f2 h1 h2
    rcases f1 with _ | a
    · omega
    rcases f2 with _ | b
    · omega
    by_cases h : n < 10
    · simp [natToDigitsAux, h]
    · simp only [natToDigitsAux, if_neg h]
      rw [ih (n / 10) (Nat.div_lt_self (by omega) (by omega)) a b
        (by omega) (by omega)]

/-- The defining unfolding of `natToDigits`. -/
theorem natToDigits_eq (n : Nat) :
    natToDigits n = if n < 10 then [digitChar n]
      else natToDigits (n / 10) ++ [digitChar (n % 10)] := by
  rw [natToDigits, natToDigitsAux]
  by_cases h : n < 10
  · simp [h]
  · simp only [if_neg h]
    rw [natToDigitsAux_fuel (n / 10) n (n / 10 + 1)
      (by omega) (by omega)]
    rfl

/-- `natToDigits` is a non-empty all-digit string. -/
theorem natToDigits_spec (n : Nat) :
    (∃ d ds, natToDigits n = d :: ds) ∧
    (∀ c ∈ natToDigits n, isDigitChar c = true) := by
  induction n using Nat.strong_induction_on with
  | _ n ih =>
    by_cases h : n < 10
    · rw [natToDigits_eq, if_pos h]
      exact ⟨⟨_, _, rfl⟩, by
        intro c hc
        simp only [List.mem_singleton] at hc
        rw [hc]
        exact isDigitChar_digitChar n h⟩
    · rw [natToDigits_eq, if_neg h]
      obtain ⟨⟨d, ds, hds⟩, hall⟩ := ih (n / 10)
        (Nat.div_lt_self (by omega) (by omega))
      constructor
      · rw [hds]
        exact ⟨d, ds ++ [digitChar (n % 10)], by simp⟩
      · intro c hc
        rcases List.mem_append.mp hc with hc | hc
        · exact hall c hc
        · simp only [List.mem_singleton] at hc
          rw [hc]
          exact isDigitChar_digitChar _ (Nat.mod_lt _ (by omega))

/-- Digit characters are not special syntax characters. -/
theorem digit_facts (c : Char) (h : isDigitChar c = true) :
    isJsonWS c = false ∧ c ≠ '"' ∧ c ≠ lbrace ∧ c ≠ '[' ∧ c ≠ 't' ∧
    c ≠ 'f' ∧ c ≠ 'n' ∧ c ≠ '-' ∧ c ≠ ']' ∧ c ≠ rbrace ∧ c ≠ ',' ∧
    c ≠ '.' ∧ c ≠ 'e' ∧ c ≠ 'E' ∧ c ≠ '\n' := by
  simp only [isDigitChar, Bool.and_eq_true, decide_eq_true_eq] at h
  have hne : ∀ x : Char, x.toNat < 48 ∨ 57 < x.toNat → c ≠ x := by
    intro x hx he
    rw [he] at h
    omega
  refine ⟨?_, hne _ (by decide), hne _ (by decide), hne _ (by decide),
    hne _ (by decide), hne _ (by decide), hne _ (by decide),
    hne _ (by decide), hne _ (by decide), hne _ (by decide),
    hne _ (by decide), hne _ (by decide), hne _ (by decide),
    hne _ (by decide), hne _ (by decide)⟩
  simp only [isJsonWS, Bool.or_eq_false_iff, decide_eq_false_iff_not]
  exact ⟨⟨⟨hne _ (by decide), hne _ (by decide)⟩, hne _ (by decide)⟩,
    hne _ (by decide)⟩

/-- Maximal digit munching over an all-digit block followed by a
non-digit continuation. -/
theorem parseDigitsAux_digits (ds : Str)
    (hds : ∀ c ∈ ds, isDigitChar c = true) (rest : Str)
    (hrest : ∀ c t, rest = c :: t → isDigitChar c = false) :
    ∀ acc, parseDigitsAux (ds ++ rest) acc =
      (ds.foldl (fun a c => a * 10 + (c.toNat - 48)) acc, rest) := by
  induction ds with
  | nil =>
      intro acc
      simp only [List.nil_append, List.foldl_nil]
      cases rest with
      | nil => rfl
      | cons c t => simp [parseDigitsAux, hrest c t rfl]
  | cons c tl ih =>
      intro acc
      have hc := hds c (by simp)
      simp only [List.cons_append, parseDigitsAux, hc, if_true,
        List.foldl_cons]
      exact ih (fun x hx => hds x (by simp [hx])) _

/-- Folding the digits of `n` over `acc` recovers `n`. -/
theorem foldl_natToDigits (n : Nat) : ∀ acc,
    (natToDigits n).foldl (fun a c => a * 10 + (c.toNat - 48)) acc =
      acc * 10 ^ (natToDigits n).length + n := by
  induction n using Nat.strong_induction_on with
  | _ n ih =>
    intro acc
    by_cases h : n < 10
    · rw [natToDigits_eq, if_pos h]
      simp only [List.foldl_cons, List.foldl_nil, List.length_singleton,
        pow_one, digitChar_toNat n h]
      omega
    · rw [natToDigits_eq, if_neg h]
      rw [List.foldl_append]
      rw [ih (n / 10) (Nat.div_lt_self (by omega) (by omega)) acc]
      simp only [List.foldl_cons, List.foldl_nil, List.length_append,
        List.length_singleton, digitChar_toNat (n % 10) (Nat.mod_lt _
          (by omega))]
      calc (acc * 10 ^ (natToDigits (n / 10)).length + n / 10) * 10 +
            (48 + n % 10 - 48)
          = acc * (10 ^ (natToDigits (n / 10)).length * 10) +
            (n / 10 * 10 + n % 10) := by ring_nf; omega
        _ = acc * 10 ^ ((natToDigits (n / 10)).length + 1) + n := by
            rw [← pow_succ]
            omega

/-- The leading digit of a positive number is not zero. -/
theorem natToDigits_head_ne_zero (n : Nat) (h : 0 < n) :
    ∀ d ds, natToDigits n = d :: ds → d ≠ '0' := by
  induction n using Nat.strong_induction_on with
  | _ n ih =>
    intro d ds hd
    by_cases hn : n < 10
    · rw [natToDigits_eq, if_pos hn] at hd
      simp only [List.cons.injEq] at hd
      intro he
      have := congrArg Char.toNat hd.1.symm
      rw [he] at this
      rw [digitChar_toNat n hn] at this
      have h0 : ('0').toNat = 48 := rfl
      omega
    · rw [natToDigits_eq, if_neg hn] at hd
      obtain ⟨⟨d0, ds0, hds⟩, _⟩ := natToDigits_spec (n / 10)
      rw [hds] at hd
      simp only [List.cons_append, List.cons.injEq] at hd
      rw [← hd.1]
      exact ih (n / 10) (Nat.div_lt_self (by omega) (by omega))
        (by omega) d0 ds0 hds

/-- Continuations allowed by `goodRest` neither extend a number nor start
a fraction or exponent. -/
theorem goodRest_facts (rest : Str) (h : goodRest rest) :
    (∀ c t, rest = c :: t → isDigitChar c = false) ∧
    rest.head? ≠ some '.' ∧ rest.head? ≠ some 'e' ∧
    rest.head? ≠ some 'E' := by
  refine ⟨?_, ?_, ?_, ?_⟩
  · intro c t hct
    subst hct
    rcases h with h | h <;> subst h <;> decide
  all_goals
    cases rest with
    | nil => simp
    | cons c t =>
        simp only [List.head?_cons, ne_eq, Option.some.injEq]
        rcases h with h | h <;> subst h <;> decide

/-- `parseNum` inverts `repr` on integers. -/
theorem parseNum_intToStr (i : Int) (rest : Str) (hrest : goodRest rest) :
    parseNum (intToStr i ++ rest) = .ok (i, rest) := by
  obtain ⟨hnd, hdot, he, hE⟩ := goodRest_facts rest hrest
  by_cases hneg : i < 0
  · have habs : 0 < i.natAbs := by omega
    obtain ⟨⟨d, ds, hds⟩, hall⟩ := natToDigits_spec i.natAbs
    have hd : isDigitChar d = true := hall d (by rw [hds]; simp)
    have hd0 : d ≠ '0' := natToDigits_head_ne_zero _ habs d ds hds
    have hfold : ds.foldl (fun a c => a * 10 + (c.toNat - 48))
        (d.toNat - 48) = i.natAbs := by
      have h2 := foldl_natToDigits i.natAbs 0
      rw [hds] at h2
      simpa using h2
    simp only [intToStr, if_pos hneg, hds, List.cons_append, parseNum,
      List.head?_cons, List.tail_cons, decide_True, if_true]
    rw [if_pos hd, if_neg hd0]
    rw [parseDigitsAux_digits ds
      (fun x hx => hall x (by rw [hds]; simp [hx])) rest hnd (d.toNat - 48)]
    rw [if_neg (by simp [hdot, he, hE])]
    simp only [hfold, decide_True, if_true, Except.ok.injEq,
      Prod.mk.injEq, and_true]
    omega
  · obtain ⟨⟨d, ds, hds⟩, hall⟩ := natToDigits_spec i.toNat
    have hd : isDigitChar d = true := hall d (by rw [hds]; simp)
    have hdash : d ≠ '-' := (digit_facts d hd).2.2.2.2.2.2.2.1
    by_cases h0 : i = 0
    · subst h0
      have h00 : intToStr 0 ++ rest = '0' :: rest := rfl
      rw [h00]
      show (if rest.head? = some '.' ∨ rest.head? = some 'e' ∨
          rest.head? = some 'E' then (Except.error .decodeError : Except JErr (Int × Str))
        else Except.ok (((0 : Nat) : Int), rest)) = .ok (0, rest)
      rw [if_neg (by simp [hdot, he, hE])]
      rfl
    · have hpos : 0 < i.toNat := by omega
      have hd0 : d ≠ '0' := natToDigits_head_ne_zero _ hpos d ds hds
      have hfold : ds.foldl (fun a c => a * 10 + (c.toNat - 48))
          (d.toNat - 48) = i.toNat := by
        have h2 := foldl_natToDigits i.toNat 0
        rw [hds] at h2
        simpa using h2
      have hnegb : (decide (some d = some '-')) = false := by
        simp [hdash]
      simp only [intToStr, if_neg hneg, hds, List.cons_append, parseNum,
        List.head?_cons, hnegb, Bool.false_eq_true, if_false]
      rw [if_pos hd, if_neg hd0]
      rw [parseDigitsAux_digits ds
        (fun x hx => hall x (by rw [hds]; simp [hx])) rest hnd
        (d.toNat - 48)]
      rw [if_neg (by simp [hdot, he, hE])]
      simp only [hfold, Except.ok.injEq, Prod.mk.injEq, and_true]
      omega

/-- A character is recovered from its code point. -/
theorem ofNat_toNat (c : Char) : Char.ofNat c.toNat = c := by
  have hv : Nat.isValidChar c.toNat := c.valid
  apply Char.ext
  have h := toNat_ofNat_valid c.toNat hv
  unfold Char.toNat at h
  exact UInt32.ext h

/-- Valid scalar values avoid the surrogate range and stay below
`0x110000`. -/
theorem char_valid_range (c : Char) :
    c.toNat < 55296 ∨ (57344 ≤ c.toNat ∧ c.toNat < 1114112) := by
  rcases c.valid with h | ⟨h1, h2⟩
  · exact Or.inl h
  · exact Or.inr ⟨h1, h2⟩

/-- `hexVal` inverts `toHexDigit` on one hex digit. -/
theorem hexVal_toHexDigit (k : Nat) (h : k < 16) :
    hexVal (toHexDigit k) = some k := by
  unfold toHexDigit hexVal
  by_cases h10 : k < 10
  · rw [if_pos h10, toNat_ofNat_valid _ (isValidChar_small _ (by omega))]
    rw [if_pos (by omega)]
    exact congrArg some (by omega)
  · rw [if_neg h10, toNat_ofNat_valid _ (isValidChar_small _ (by omega))]
    rw [if_neg (by omega), if_pos (by omega)]
    exact congrArg some (by omega)

/-- The shape and digit values of a `\uXXXX` payload. -/
theorem toHex4_parse (n : Nat) :
    ∃ a b c d, toHex4 n = [a, b, c, d] ∧
      hexVal a = some (n / 4096 % 16) ∧ hexVal b = some (n / 256 % 16) ∧
      hexVal c = some (n / 16 % 16) ∧ hexVal d = some (n % 16) := by
  refine ⟨_, _, _, _, rfl, ?_, ?_, ?_, ?_⟩ <;>
    exact hexVal_toHexDigit _ (Nat.mod_lt _ (by omega))

/-- Reassembling the four hex digits of a value below `0x10000`. -/
theorem hexRecon (n : Nat) (h : n < 65536) :
    n / 4096 % 16 * 4096 + n / 256 % 16 * 256 + n / 16 % 16 * 16 +
      n % 16 = n := by
  omega

/-- `unescapeOne` inverts `json.dumps` escaping of one character. -/
theorem unescapeOne_escapeChar (c : Char) (T : Str) :
    unescapeOne (escapeChar c ++ T) = some (c, T) := by
  by_cases hq : c = '"'
  · subst hq
    rfl
  by_cases hb : c = '\\'
  · subst hb
    rfl
  by_cases hn : c = '\n'
  · subst hn
    rfl
  by_cases ht : c = '\t'
  · subst ht
    rfl
  by_cases hr : c = '\x0d'
  · subst hr
    rfl
  by_cases hb8 : c = '\x08'
  · subst hb8
    rfl
  by_cases hf : c = '\x0c'
  · subst hf
    rfl
  by_cases hc32 : c.toNat < 32
  · obtain ⟨a, b, cc, d, h4, ha, hb', hc', hd⟩ := toHex4_parse c.toNat
    simp only [escapeChar, if_neg hq, if_neg hb, if_neg hn, if_neg ht,
      if_neg hr, if_neg hb8, if_neg hf, if_pos hc32, h4,
      List.cons_append, List.nil_append]
    simp only [unescapeOne, if_neg (by decide : ¬('\\' : Char) = '"'),
      if_true, ha, hb', hc', hd]
    rw [hexRecon c.toNat (by omega)]
    rw [if_neg (by omega)]
    rw [ofNat_toNat]
  by_cases hc127 : c.toNat < 127
  · simp only [escapeChar, if_neg hq, if_neg hb, if_neg hn, if_neg ht,
      if_neg hr, if_neg hb8, if_neg hf, if_neg hc32, if_pos hc127,
      List.cons_append, List.nil_append]
    simp only [unescapeOne, if_neg hq, if_neg hb, if_neg hc32]
  by_cases hbmp : c.toNat < 65536
  · obtain ⟨a, b, cc, d, h4, ha, hb', hc', hd⟩ := toHex4_parse c.toNat
    have hval := char_valid_range c
    simp only [escapeChar, if_neg hq, if_neg hb, if_neg hn, if_neg ht,
      if_neg hr, if_neg hb8, if_neg hf, if_neg hc32, if_neg hc127,
      if_pos hbmp, h4, List.cons_append, List.nil_append]
    simp only [unescapeOne, if_neg (by decide : ¬('\\' : Char) = '"'),
      if_true, ha, hb', hc', hd]
    rw [hexRecon c.toNat (by omega)]
    rw [if_neg (by rcases hval with h | ⟨h1, h2⟩ <;> omega)]
    rw [ofNat_toNat]
  · have hval := char_valid_range c
    have hhi : c.toNat < 1114112 := by
      rcases hval with h | ⟨_, h⟩ <;> omega
    obtain ⟨a, b, cc, d, h4, ha, hb', hc', hd⟩ :=
      toHex4_parse (55296 + (c.toNat - 65536) / 1024)
    obtain ⟨a2, b2, c2, d2, h42, ha2, hb2, hc2, hd2⟩ :=
      toHex4_parse (56320 + (c.toNat - 65536) % 1024)
    simp only [escapeChar, if_neg hq, if_neg hb, if_neg hn, if_neg ht,
      if_neg hr, if_neg hb8, if_neg hf, if_neg hc32, if_neg hc127,
      if_neg hbmp, h4, h42, List.cons_append, List.nil_append,
      List.append_assoc]
    simp only [unescapeOne, if_neg (by decide : ¬('\\' : Char) = '"'),
      if_true, ha, hb', hc', hd]
    rw [hexRecon (55296 + (c.toNat - 65536) / 1024) (by omega)]
    rw [if_pos (by omega : 55296 ≤ 55296 + (c.toNat - 65536) / 1024 ∧
      55296 + (c.toNat - 65536) / 1024 ≤ 56319)]
    rw [if_pos (⟨trivial, trivial⟩ : True ∧ True)]
    simp only [ha2, hb2, hc2, hd2]
    rw [hexRecon (56320 + (c.toNat - 65536) % 1024) (by omega)]
    rw [if_pos (by omega : 56320 ≤ 56320 + (c.toNat - 65536) % 1024 ∧
      56320 + (c.toNat - 65536) % 1024 ≤ 57343)]
    have hcd : 65536 + (55296 + (c.toNat - 65536) / 1024 - 55296) * 1024 +
        (56320 + (c.toNat - 65536) % 1024 - 56320) = c.toNat := by
      omega
    rw [hcd, ofNat_toNat]

/-- Every escape sequence starts with a character other than `"`. -/
theorem escapeChar_head (c : Char) :
    ∃ h t, escapeChar c = h :: t ∧ h ≠ '"' := by
  by_cases hq : c = '"'
  · exact ⟨'\\', ['"'], by rw [hq]; rfl, by decide⟩
  by_cases hb : c = '\\'
  · exact ⟨'\\', ['\\'], by rw [hb]; rfl, by decide⟩
  by_cases hn : c = '\n'
  · exact ⟨'\\', ['n'], by rw [hn]; rfl, by decide⟩
  by_cases ht : c = '\t'
  · exact ⟨'\\', ['t'], by rw [ht]; rfl, by decide⟩
  by_cases hr : c = '\x0d'
  · exact ⟨'\\', ['r'], by rw [hr]; rfl, by decide⟩
  by_cases hb8 : c = '\x08'
  · exact ⟨'\\', ['b'], by rw [hb8]; rfl, by decide⟩
  by_cases hf : c = '\x0c'
  · exact ⟨'\\', ['f'], by rw [hf]; rfl, by decide⟩
  by_cases hc32 : c.toNat < 32
  · exact ⟨'\\', 'u' :: toHex4 c.toNat, by
      simp only [escapeChar, if_neg hq, if_neg hb, if_neg hn, if_neg ht,
        if_neg hr, if_neg hb8, if_neg hf, if_pos hc32], by decide⟩
  by_cases hc127 : c.toNat < 127
  · exact ⟨c, [], by
      simp only [escapeChar, if_neg hq, if_neg hb, if_neg hn, if_neg ht,
        if_neg hr, if_neg hb8, if_neg hf, if_neg hc32, if_pos hc127], hq⟩
  by_cases hbmp : c.toNat < 65536
  · exact ⟨'\\', 'u' :: toHex4 c.toNat, by
      simp only [escapeChar, if_neg hq, if_neg hb, if_neg hn, if_neg ht,
        if_neg hr, if_neg hb8, if_neg hf, if_neg hc32, if_neg hc127,
        if_pos hbmp], by decide⟩
  · exact ⟨'\\', 'u' :: (toHex4 (55296 + (c.toNat - 65536) / 1024) ++
      ('\\' :: 'u' :: toHex4 (56320 + (c.toNat - 65536) % 1024))), by
      simp only [escapeChar, if_neg hq, if_neg hb, if_neg hn, if_neg ht,
        if_neg hr, if_neg hb8, if_neg hf, if_neg hc32, if_neg hc127,
        if_neg hbmp, List.cons_append], by decide⟩

/-- Escape sequences are non-empty. -/
theorem escapeChar_length_pos (c : Char) : 0 < (escapeChar c).length := by
  obtain ⟨h, t, hct, _⟩ := escapeChar_head c
  rw [hct]
  simp

/-- The string-body scanner inverts `json.dumps` escaping, given enough
fuel. -/
theorem psbAux_escape : ∀ (s : Str) (fuel : Nat) (r : Str),
    (s.map escapeChar).flatten.length < fuel →
    psbAux fuel ((s.map escapeChar).flatten ++ '"' :: r) = .ok (s, r) := by
  intro s
  induction s with
  | nil =>
      intro fuel r hf
      match fuel with
      | f + 1 => rfl
  | cons c cs ih =>
      intro fuel r hf
      simp only [List.map_cons, List.flatten_cons, List.append_assoc] at hf ⊢
      match fuel with
      | f + 1 =>
        have hlen : (cs.map escapeChar).flatten.length < f := by
          have h1 := escapeChar_length_pos c
          simp only [List.length_append] at hf
          omega
        have hhead : ¬((escapeChar c ++
            ((cs.map escapeChar).flatten ++ '"' :: r)).head? = some '"') := by
          obtain ⟨h, t, hct, hne⟩ := escapeChar_head c
          rw [hct]
          simp [hne]
        simp only [psbAux, if_neg hhead, unescapeOne_escapeChar,
          ih f r hlen]

/-- `parseStringBody` inverts `json.dumps` escaping. -/
theorem parseStringBody_escape (s r : Str) :
    parseStringBody ((s.map escapeChar).flatten ++ '"' :: r) =
      .ok (s, r) := by
  apply psbAux_escape
  simp only [List.length_append, List.length_cons]
  omega

/-- The empty text is whitespace-only. -/
theorem wsOnly_nil : wsOnly [] := by
  intro c hc
  exact absurd hc (List.not_mem_nil c)

/-- A newline before whitespace is whitespace. -/
theorem wsOnly_cons_nl (ws : Str) (h : wsOnly ws) : wsOnly ('\n' :: ws) := by
  intro c hc
  rcases List.mem_cons.mp hc with rfl | hc
  · rfl
  · exact h c hc

/-- One space is whitespace. -/
theorem wsOnly_space : wsOnly [' '] := by
  intro c hc
  rcases List.mem_cons.mp hc with rfl | hc
  · rfl
  · exact absurd hc (List.not_mem_nil c)

/-- Serialized values start with a character that is not whitespace and
not a closing bracket. -/
theorem dumpVal_head (ind : Nat) (v : JsonVal) :
    ∃ c t, dumpVal ind v = c :: t ∧ isJsonWS c = false ∧ c ≠ ']' ∧
      c ≠ rbrace := by
  cases v with
  | null => exact ⟨'n', _, rfl, by decide, by decide, by decide⟩
  | bool b =>
      cases b
      · exact ⟨'f', _, rfl, by decide, by decide, by decide⟩
      · exact ⟨'t', _, rfl, by decide, by decide, by decide⟩
  | num i =>
      by_cases hneg : i < 0
      · exact ⟨'-', _, by rw [show dumpVal ind (.num i) = intToStr i
          from rfl, intToStr, if_pos hneg], by decide, by decide,
          by decide⟩
      · obtain ⟨⟨d, ds, hds⟩, hall⟩ := natToDigits_spec i.toNat
        have hd : isDigitChar d = true := hall d (by rw [hds]; simp)
        obtain ⟨hws, _, _, _, _, _, _, _, hbr, hrb, _⟩ := digit_facts d hd
        exact ⟨d, ds, by rw [show dumpVal ind (.num i) = intToStr i
          from rfl, intToStr, if_neg hneg, hds], hws, hbr, hrb⟩
  | str s =>
      exact ⟨'"', (s.map escapeChar).flatten ++ ['"'], by
        rw [show dumpVal ind (.str s) = dumpStr s from rfl, dumpStr,
          List.cons_append], by decide, by decide, by decide⟩
  | arr xs =>
      cases xs
      · exact ⟨'[', _, rfl, by decide, by decide, by decide⟩
      · exact ⟨'[', _, rfl, by decide, by decide, by decide⟩
  | obj kvs =>
      cases kvs
      · exact ⟨lbrace, _, rfl, by decide, by decide, by decide⟩
      · exact ⟨lbrace, _, rfl, by decide, by decide, by decide⟩

/-- `parseVal` on a serialized `null`. -/
theorem parseVal_step_null (f : Nat) (pre rest : Str) (hpre : wsOnly pre) :
    parseVal (f + 1) (pre ++ ('n' :: 'u' :: 'l' :: 'l' :: rest)) =
      .ok (.null, rest) := by
  simp only [parseVal]
  rw [skipWS_append_ws _ _ hpre, skipWS_cons_neg _ _ (by decide)]
  rfl

/-- `parseVal` on a serialized `true`. -/
theorem parseVal_step_true (f : Nat) (pre rest : Str) (hpre : wsOnly pre) :
    parseVal (f + 1) (pre ++ ('t' :: 'r' :: 'u' :: 'e' :: rest)) =
      .ok (.bool true, rest) := by
  simp only [parseVal]
  rw [skipWS_append_ws _ _ hpre, skipWS_cons_neg _ _ (by decide)]
  rfl

/-- `parseVal` on a serialized `false`. -/
theorem parseVal_step_false (f : Nat) (pre rest : Str) (hpre : wsOnly pre) :
    parseVal (f + 1) (pre ++ ('f' :: 'a' :: 'l' :: 's' :: 'e' :: rest)) =
      .ok (.bool false, rest) := by
  simp only [parseVal]
  rw [skipWS_append_ws _ _ hpre, skipWS_cons_neg _ _ (by decide)]
  rfl

/-- `parseVal` on a serialized string. -/
theorem parseVal_step_str (f : Nat) (pre : Str) (s : Str) (rest : Str)
    (hpre : wsOnly pre) :
    parseVal (f + 1) (pre ++ (dumpStr s ++ rest)) = .ok (.str s, rest) := by
  have hs : dumpStr s ++ rest =
      '"' :: ((s.map escapeChar).flatten ++ '"' :: rest) := by
    simp [dumpStr]
  simp only [parseVal]
  rw [hs, skipWS_append_ws _ _ hpre, skipWS_cons_neg _ _ (by decide)]
  dsimp only
  rw [parseStringBody_escape s rest]
  rfl

/-- The head of an integer rendering. -/
theorem intToStr_head (i : Int) :
    ∃ c t, intToStr i = c :: t ∧ (c = '-' ∨ isDigitChar c = true) := by
  by_cases hneg : i < 0
  · exact ⟨'-', _, by rw [intToStr, if_pos hneg], Or.inl rfl⟩
  · obtain ⟨⟨d, ds, hds⟩, hall⟩ := natToDigits_spec i.toNat
    exact ⟨d, ds, by rw [intToStr, if_neg hneg, hds],
      Or.inr (hall d (by rw [hds]; simp))⟩

/-- `parseVal` on a serialized integer. -/
theorem parseVal_step_num (f : Nat) (pre : Str) (i : Int) (rest : Str)
    (hpre : wsOnly pre) (hrest : goodRest rest) :
    parseVal (f + 1) (pre ++ (intToStr i ++ rest)) = .ok (.num i, rest) := by
  obtain ⟨c, t, hct, hcd⟩ := intToStr_head i
  have hfacts : isJsonWS c = false ∧ c ≠ '"' ∧ c ≠ lbrace ∧ c ≠ '[' ∧
      c ≠ 't' ∧ c ≠ 'f' ∧ c ≠ 'n' := by
    rcases hcd with rfl | hdig
    · exact ⟨by decide, by decide, by decide, by decide, by decide,
        by decide, by decide⟩
    · obtain ⟨h1, h2, h3, h4, h5, h6, h7, _⟩ := digit_facts c hdig
      exact ⟨h1, h2, h3, h4, h5, h6, h7⟩
  obtain ⟨hws, hq, hlb, hbk, ht, hf2, hn⟩ := hfacts
  have hs : intToStr i ++ rest = c :: (t ++ rest) := by
    rw [hct, List.cons_append]
  simp only [parseVal]
  rw [hs, skipWS_append_ws _ _ hpre, skipWS_cons_neg _ _ hws]
  dsimp only
  rw [if_neg hq, if_neg hlb, if_neg hbk, if_neg ht, if_neg hf2, if_neg hn,
    if_pos hcd, ← List.cons_append, ← hct, parseNum_intToStr i rest hrest]

/-- `parseVal` on a serialized empty array. -/
theorem parseVal_step_arrnil (f : Nat) (pre rest : Str)
    (hpre : wsOnly pre) :
    parseVal (f + 1) (pre ++ ('[' :: ']' :: rest)) = .ok (.arr [], rest) := by
  simp only [parseVal]
  rw [skipWS_append_ws _ _ hpre, skipWS_cons_neg _ _ (by decide)]
  rfl

/-- `parseVal` on a serialized empty object. -/
theorem parseVal_step_objnil (f : Nat) (pre rest : Str)
    (hpre : wsOnly pre) :
    parseVal (f + 1) (pre ++ (lbrace :: rbrace :: rest)) =
      .ok (.obj [], rest) := by
  simp only [parseVal]
  rw [skipWS_append_ws _ _ hpre, skipWS_cons_neg _ _ (by decide)]
  rfl

/-- `parseVal` on a serialized non-empty array reduces to `parseArrItems`
on the first item. -/
theorem parseVal_step_arr (f ind : Nat) (pre : Str) (x : JsonVal)
    (xs : List JsonVal) (rest : Str) (hpre : wsOnly pre) :
    parseVal (f + 1) (pre ++ (dumpVal ind (.arr (x :: xs)) ++ rest)) =
      parseArrItems f (dumpVal (ind + 2) x ++ (dumpArrRest (ind + 2) xs ++
        '\n' :: (spaces ind ++ (']' :: rest)))) := by
  obtain ⟨c, t, hct, hcws, hcbr, hcrb⟩ := dumpVal_head (ind + 2) x
  have hshape : dumpVal ind (.arr (x :: xs)) ++ rest =
      '[' :: ('\n' :: (spaces (ind + 2) ++ (dumpVal (ind + 2) x ++
        (dumpArrRest (ind + 2) xs ++
          '\n' :: (spaces ind ++ (']' :: rest)))))) := by
    rw [show dumpVal ind (.arr (x :: xs)) =
      '[' :: '\n' :: spaces (ind + 2) ++ dumpVal (ind + 2) x ++
        dumpArrRest (ind + 2) xs ++ '\n' :: spaces ind ++ [']'] from rfl]
    simp [List.cons_append, List.append_assoc]
  have hsk : skipWS ('\n' :: (spaces (ind + 2) ++ (dumpVal (ind + 2) x ++
      (dumpArrRest (ind + 2) xs ++
        '\n' :: (spaces ind ++ (']' :: rest)))))) =
      dumpVal (ind + 2) x ++ (dumpArrRest (ind + 2) xs ++
        '\n' :: (spaces ind ++ (']' :: rest))) := by
    rw [hct, List.cons_append, skipWS_indent _ _ _ hcws,
      ← List.cons_append]
  simp only [parseVal]
  rw [hshape, skipWS_append_ws _ _ hpre, skipWS_cons_neg _ _ (by decide)]
  dsimp only
  rw [if_neg (by decide : ¬('[' : Char) = '"'),
    if_neg (by decide : ¬('[' : Char) = lbrace),
    if_pos (rfl : ('[' : Char) = '[')]
  rw [hsk, hct, List.cons_append, List.head?_cons,
    if_neg (by simp [hcbr] : ¬(some c = some ']')), ← List.cons_append,
    ← hct]

/-- `parseVal` on a serialized non-empty object reduces to
`parseObjItems` on the first member. -/
theorem parseVal_step_obj (f ind : Nat) (pre : Str) (kv : Str × JsonVal)
    (kvs : List (Str × JsonVal)) (rest : Str) (hpre : wsOnly pre) :
    parseVal (f + 1) (pre ++ (dumpVal ind (.obj (kv :: kvs)) ++ rest)) =
      parseObjItems f (dumpStr kv.1 ++ (':' :: ' ' ::
        dumpVal (ind + 2) kv.2 ++ (dumpObjRest (ind + 2) kvs ++
        '\n' :: (spaces ind ++ (rbrace :: rest))))) := by
  have hq : dumpStr kv.1 = '"' :: ((kv.1.map escapeChar).flatten) ++ ['"'] :=
    rfl
  have hshape : dumpVal ind (.obj (kv :: kvs)) ++ rest =
      lbrace :: ('\n' :: (spaces (ind + 2) ++ (dumpStr kv.1 ++ (':' :: ' ' ::
        dumpVal (ind + 2) kv.2 ++ (dumpObjRest (ind + 2) kvs ++
        '\n' :: (spaces ind ++ (rbrace :: rest))))))) := by
    rw [show dumpVal ind (.obj (kv :: kvs)) =
      lbrace :: '\n' :: spaces (ind + 2) ++ dumpStr kv.1 ++
        ':' :: ' ' :: dumpVal (ind + 2) kv.2 ++
        dumpObjRest (ind + 2) kvs ++ '\n' :: spaces ind ++ [rbrace]
      from rfl]
    simp [List.cons_append, List.append_assoc]
  have hsk : skipWS ('\n' :: (spaces (ind + 2) ++ (dumpStr kv.1 ++
      (':' :: ' ' :: dumpVal (ind + 2) kv.2 ++ (dumpObjRest (ind + 2) kvs ++
        '\n' :: (spaces ind ++ (rbrace :: rest))))))) =
      dumpStr kv.1 ++ (':' :: ' ' :: dumpVal (ind + 2) kv.2 ++
        (dumpObjRest (ind + 2) kvs ++
          '\n' :: (spaces ind ++ (rbrace :: rest)))) := by
    rw [hq, List.cons_append, List.cons_append,
      skipWS_indent _ _ _ (by decide), ← List.cons_append,
      ← List.cons_append]
  simp only [parseVal]
  rw [hshape, skipWS_append_ws _ _ hpre, skipWS_cons_neg _ _ (by decide)]
  dsimp only
  rw [if_neg (by decide : ¬lbrace = '"'), if_pos (rfl : lbrace = lbrace)]
  rw [hsk, hq, List.cons_append, List.cons_append, List.head?_cons,
    if_neg (by decide : ¬(some '"' = some rbrace)), ← List.cons_append,
    ← List.cons_append, ← hq]

/-- Fuel requirements are at least one. -/
theorem one_le_fuelVal (v : JsonVal) : 1 ≤ fuelVal v := by
  cases v <;> simp only [fuelVal] <;> omega

/-- Item fuel requirements are at least one. -/
theorem one_le_fuelItems (xs : List JsonVal) : 1 ≤ fuelItems xs := by
  cases xs <;> simp only [fuelItems] <;> omega

/-- Member fuel requirements are at least one. -/
theorem one_le_fuelMembers (kvs : List (Str × JsonVal)) :
    1 ≤ fuelMembers kvs := by
  cases kvs <;> simp only [fuelMembers] <;> omega

/-- The parser inverts the serializer: given sufficient fuel, a
serialized value between any whitespace prefix and any legal
continuation parses back to itself. -/
theorem parse_dump (fuel : Nat) :
    (∀ v ind pre rest, fuelVal v ≤ fuel → wsOnly pre → goodRest rest →
      parseVal fuel (pre ++ (dumpVal ind v ++ rest)) = .ok (v, rest)) ∧
    (∀ x xs ind pre ws rest, fuelItems (x :: xs) ≤ fuel → wsOnly pre →
      wsOnly ws →
      parseArrItems fuel (pre ++ (dumpVal ind x ++ (dumpArrRest ind xs ++
        '\n' :: (ws ++ (']' :: rest))))) = .ok (.arr (x :: xs), rest)) ∧
    (∀ kv kvs ind ws rest, fuelMembers (kv :: kvs) ≤ fuel → wsOnly ws →
      parseObjItems fuel (dumpStr kv.1 ++ (':' :: (' ' ::
        (dumpVal ind kv.2 ++ (dumpObjRest ind kvs ++
        '\n' :: (ws ++ (rbrace :: rest))))))) =
        .ok (.obj (kv :: kvs), rest)) := by
  induction fuel with
  | zero =>
      refine ⟨?_, ?_, ?_⟩
      · intro v ind pre rest h _ _
        have := one_le_fuelVal v
        omega
      · intro x xs ind pre ws rest h _ _
        have := one_le_fuelItems (x :: xs)
        omega
      · intro kv kvs ind ws rest h _
        have := one_le_fuelMembers (kv :: kvs)
        omega
  | succ f ih =>
      refine ⟨?_, ?_, ?_⟩
      · intro v ind pre rest hfuel hpre hrest
        cases v with
        | null =>
            rw [show dumpVal ind .null ++ rest =
              'n' :: 'u' :: 'l' :: 'l' :: rest from rfl]
            exact parseVal_step_null f pre rest hpre
        | bool b =>
            cases b
            · rw [show dumpVal ind (.bool false) ++ rest =
                'f' :: 'a' :: 'l' :: 's' :: 'e' :: rest from rfl]
              exact parseVal_step_false f pre rest hpre
            · rw [show dumpVal ind (.bool true) ++ rest =
                't' :: 'r' :: 'u' :: 'e' :: rest from rfl]
              exact parseVal_step_true f pre rest hpre
        | num i =>
            rw [show dumpVal ind (.num i) ++ rest = intToStr i ++ rest
              from rfl]
            exact parseVal_step_num f pre i rest hpre hrest
        | str s =>
            rw [show dumpVal ind (.str s) ++ rest = dumpStr s ++ rest
              from rfl]
            exact parseVal_step_str f pre s rest hpre
        | arr xs =>
            cases xs with
            | nil =>
                rw [show dumpVal ind (.arr []) ++ rest =
                  '[' :: ']' :: rest from rfl]
                exact parseVal_step_arrnil f pre rest hpre
            | cons x xs =>
                rw [parseVal_step_arr f ind pre x xs rest hpre]
                have hfx : fuelItems (x :: xs) ≤ f := by
                  simp only [fuelVal] at hfuel
                  omega
                have h := ih.2.1 x xs (ind + 2) [] (spaces ind) rest hfx
                  wsOnly_nil (wsOnly_spaces ind)
                rw [List.nil_append] at h
                exact h
        | obj kvs =>
            cases kvs with
            | nil =>
                rw [show dumpVal ind (.obj []) ++ rest =
                  lbrace :: rbrace :: rest from rfl]
                exact parseVal_step_objnil f pre rest hpre
            | cons kv kvs =>
                rw [parseVal_step_obj f ind pre kv kvs rest hpre]
                have hfk : fuelMembers (kv :: kvs) ≤ f := by
                  simp only [fuelVal] at hfuel
                  omega
                have h := ih.2.2 kv kvs (ind + 2) (spaces ind) rest hfk
                  (wsOnly_spaces ind)
                simp only [List.cons_append] at h ⊢
                exact h
      · intro x xs ind pre ws rest hfuel hpre hws
        simp only [fuelItems] at hfuel
        have hfx : fuelVal x ≤ f := by omega
        cases xs with
        | nil =>
            simp only [dumpArrRest, List.nil_append]
            simp only [parseArrItems]
            rw [ih.1 x ind pre ('\n' :: (ws ++ (']' :: rest))) hfx hpre
              (Or.inr rfl)]
            dsimp only
            rw [← List.cons_append,
              skipWS_append_ws _ _ (wsOnly_cons_nl ws hws),
              skipWS_cons_neg _ _ (by decide)]
            rfl
        | cons x2 xs2 =>
            have hfx2 : fuelItems (x2 :: xs2) ≤ f := by omega
            simp only [dumpArrRest, List.cons_append, List.append_assoc]
            simp only [parseArrItems]
            rw [ih.1 x ind pre (',' :: ('\n' :: (spaces ind ++
              (dumpVal ind x2 ++ (dumpArrRest ind xs2 ++
                '\n' :: (ws ++ (']' :: rest))))))) hfx hpre (Or.inl rfl)]
            have hsw : skipWS (',' :: ('\n' :: (spaces ind ++
                (dumpVal ind x2 ++ (dumpArrRest ind xs2 ++
                  '\n' :: (ws ++ (']' :: rest))))))) =
                ',' :: ('\n' :: (spaces ind ++
                (dumpVal ind x2 ++ (dumpArrRest ind xs2 ++
                  '\n' :: (ws ++ (']' :: rest)))))) :=
              skipWS_cons_neg _ _ (by decide)
            have h2 := ih.2.1 x2 xs2 ind ('\n' :: spaces ind) ws rest hfx2
              (wsOnly_cons_nl _ (wsOnly_spaces ind)) hws
            simp only [List.cons_append] at h2
            simp only [hsw, h2]
      · intro kv kvs ind ws rest hfuel hws
        simp only [fuelMembers] at hfuel
        have hfk : fuelVal kv.2 ≤ f := by omega
        have hsq : dumpStr kv.1 ++ (':' :: (' ' ::
            (dumpVal ind kv.2 ++ (dumpObjRest ind kvs ++
              '\n' :: (ws ++ (rbrace :: rest)))))) =
            '"' :: ((kv.1.map escapeChar).flatten ++ ('"' :: (':' :: (' ' ::
            (dumpVal ind kv.2 ++ (dumpObjRest ind kvs ++
              '\n' :: (ws ++ (rbrace :: rest)))))))) := by
          rw [show dumpStr kv.1 =
            '"' :: (kv.1.map escapeChar).flatten ++ ['"'] from rfl]
          simp
        have hsw3 : skipWS (':' :: (' ' ::
            (dumpVal ind kv.2 ++ (dumpObjRest ind kvs ++
              '\n' :: (ws ++ (rbrace :: rest)))))) =
            ':' :: (' ' :: (dumpVal ind kv.2 ++ (dumpObjRest ind kvs ++
              '\n' :: (ws ++ (rbrace :: rest))))) :=
          skipWS_cons_neg _ _ (by decide)
        have hv := ih.1 kv.2 ind [' '] (dumpObjRest ind kvs ++
          '\n' :: (ws ++ (rbrace :: rest))) hfk wsOnly_space (by
            cases kvs with
            | nil => exact Or.inr rfl
            | cons kv2 kvs2 => exact Or.inl rfl)
        rw [List.singleton_append] at hv
        simp only [parseObjItems]
        rw [hsq]
        simp only [parseStringBody_escape, hsw3, hv]
        cases kvs with
        | nil =>
            simp only [dumpObjRest, List.nil_append]
            rw [← List.cons_append,
              skipWS_append_ws _ _ (wsOnly_cons_nl ws hws),
              skipWS_cons_neg _ _ (by decide)]
            rfl
        | cons kv2 kvs2 =>
            have hfk2 : fuelMembers (kv2 :: kvs2) ≤ f := by omega
            simp only [dumpObjRest, List.cons_append, List.append_assoc]
            have hsq2 : dumpStr kv2.1 ++ (':' :: (' ' ::
                (dumpVal ind kv2.2 ++ (dumpObjRest ind kvs2 ++
                  '\n' :: (ws ++ (rbrace :: rest)))))) =
                '"' :: ((kv2.1.map escapeChar).flatten ++ ('"' ::
                (':' :: (' ' :: (dumpVal ind kv2.2 ++
                (dumpObjRest ind kvs2 ++
                  '\n' :: (ws ++ (rbrace :: rest)))))))) := by
              rw [show dumpStr kv2.1 =
                '"' :: (kv2.1.map escapeChar).flatten ++ ['"'] from rfl]
              simp
            have hsk2 : skipWS ('\n' :: (spaces ind ++
                (dumpStr kv2.1 ++ (':' :: (' ' ::
                (dumpVal ind kv2.2 ++ (dumpObjRest ind kvs2 ++
                  '\n' :: (ws ++ (rbrace :: rest))))))))) =
                dumpStr kv2.1 ++ (':' :: (' ' ::
                (dumpVal ind kv2.2 ++ (dumpObjRest ind kvs2 ++
                  '\n' :: (ws ++ (rbrace :: rest))))))  := by
              rw [hsq2, skipWS_indent _ _ _ (by decide), ← hsq2]
            have hsw4 : skipWS (',' :: ('\n' :: (spaces ind ++
                (dumpStr kv2.1 ++ (':' :: (' ' ::
                (dumpVal ind kv2.2 ++ (dumpObjRest ind kvs2 ++
                  '\n' :: (ws ++ (rbrace :: rest)))))))))) =
                ',' :: ('\n' :: (spaces ind ++
                (dumpStr kv2.1 ++ (':' :: (' ' ::
                (dumpVal ind kv2.2 ++ (dumpObjRest ind kvs2 ++
                  '\n' :: (ws ++ (rbrace :: rest))))))))) :=
              skipWS_cons_neg _ _ (by decide)
            have h2 := ih.2.2 kv2 kvs2 ind ws rest hfk2 hws
            simp only [List.cons_append] at h2 hsk2 hsw4 ⊢
            simp only [hsw4, hsk2, h2]

/-- Indentation runs have their nominal length. -/
theorem spaces_length (n : Nat) : (spaces n).length = n := by
  simp [spaces]

mutual

/-- A value's fuel requirement is bounded by its serialized length. -/
theorem fuelVal_le_len : ∀ (v : JsonVal) (ind : Nat),
    fuelVal v ≤ (dumpVal ind v).length
  | .null, ind => by
      simp only [fuelVal]
      rw [show dumpVal ind .null = 'n' :: 'u' :: 'l' :: 'l' :: [] from rfl]
      decide
  | .bool true, ind => by
      simp only [fuelVal]
      rw [show dumpVal ind (.bool true) = 't' :: 'r' :: 'u' :: 'e' :: []
        from rfl]
      decide
  | .bool false, ind => by
      simp only [fuelVal]
      rw [show dumpVal ind (.bool false) =
        'f' :: 'a' :: 'l' :: 's' :: 'e' :: [] from rfl]
      decide
  | .num i, ind => by
      simp only [fuelVal]
      obtain ⟨c, t, hct, _⟩ := intToStr_head i
      rw [show dumpVal ind (.num i) = intToStr i from rfl, hct]
      simp
  | .str s, ind => by
      simp only [fuelVal]
      rw [show dumpVal ind (.str s) = dumpStr s from rfl, dumpStr]
      simp
  | .arr [], ind => by
      simp only [fuelVal, fuelItems]
      rw [show dumpVal ind (.arr []) = ['[', ']'] from rfl]
      decide
  | .arr (x :: xs), ind => by
      have h1 := fuelVal_le_len x (ind + 2)
      have h2 := fuelItems_le_len xs (ind + 2)
      simp only [fuelVal, fuelItems]
      rw [show dumpVal ind (.arr (x :: xs)) =
        '[' :: '\n' :: spaces (ind + 2) ++ dumpVal (ind + 2) x ++
          dumpArrRest (ind + 2) xs ++ '\n' :: spaces ind ++ [']']
        from rfl]
      simp only [List.length_append, List.length_cons, List.length_nil,
        spaces_length]
      omega
  | .obj [], ind => by
      simp only [fuelVal, fuelMembers]
      rw [show dumpVal ind (.obj []) = [lbrace, rbrace] from rfl]
      decide
  | .obj (kv :: kvs), ind => by
      have h1 := fuelVal_le_len kv.2 (ind + 2)
      have h2 := fuelMembers_le_len kvs (ind + 2)
      simp only [fuelVal, fuelMembers]
      rw [show dumpVal ind (.obj (kv :: kvs)) =
        lbrace :: '\n' :: spaces (ind + 2) ++ dumpStr kv.1 ++
          ':' :: ' ' :: dumpVal (ind + 2) kv.2 ++
          dumpObjRest (ind + 2) kvs ++ '\n' :: spaces ind ++ [rbrace]
        from rfl]
      simp only [List.length_append, List.length_cons, List.length_nil,
        spaces_length]
      omega

/-- Remaining array items need fuel bounded by their serialized
length plus one. -/
theorem fuelItems_le_len : ∀ (xs : List JsonVal) (ind : Nat),
    fuelItems xs ≤ (dumpArrRest ind xs).length + 1
  | [], ind => by
      simp [fuelItems, dumpArrRest]
  | x :: xs, ind => by
      have h1 := fuelVal_le_len x ind
      have h2 := fuelItems_le_len xs ind
      simp only [fuelItems]
      rw [show dumpArrRest ind (x :: xs) =
        ',' :: '\n' :: spaces ind ++ dumpVal ind x ++ dumpArrRest ind xs
        from rfl]
      simp only [List.length_append, List.length_cons, spaces_length]
      omega

/-- Remaining object members need fuel bounded by their serialized
length plus one. -/
theorem fuelMembers_le_len : ∀ (kvs : List (Str × JsonVal)) (ind : Nat),
    fuelMembers kvs ≤ (dumpObjRest ind kvs).length + 1
  | [], ind => by
      simp [fuelMembers, dumpObjRest]
  | kv :: kvs, ind => by
      have h1 := fuelVal_le_len kv.2 ind
      have h2 := fuelMembers_le_len kvs ind
      simp only [fuelMembers]
      rw [show dumpObjRest ind (kv :: kvs) =
        ',' :: '\n' :: spaces ind ++ dumpStr kv.1 ++
          ':' :: ' ' :: dumpVal ind kv.2 ++ dumpObjRest ind kvs
        from rfl]
      simp only [List.length_append, List.length_cons, spaces_length]
      omega

end

/-- `json.loads` inverts `json.dumps` on every value of the model. -/
theorem loads_dumps (v : JsonVal) : loads (dumps v) = .ok v := by
  have h := (parse_dump ((dumps v).length + 1)).1 v 0 [] []
    (le_trans (fuelVal_le_len v 0) (by simp [dumps]))
    wsOnly_nil trivial
  simp only [List.nil_append, List.append_nil] at h
  simp only [loads, dumps] at h ⊢
  simp only [h]
  rfl

/-- Reading back a just-written file. -/
theorem fsGet_fsSet_self (fs : FileSys) (n c : Str) :
    fsGet (fsSet fs n c) n = some c := by
  induction fs with
  | nil => simp [fsSet, fsGet]
  | cons p rest ih =>
      obtain ⟨m, d⟩ := p
      by_cases h : m = n
      · simp [fsSet, fsGet, h]
      · simp [fsSet, fsGet, h, ih]

/-- Writing one file leaves the others unchanged. -/
theorem fsGet_fsSet_ne (fs : FileSys) (n m c : Str) (h : n ≠ m) :
    fsGet (fsSet fs n c) m = fsGet fs m := by
  induction fs with
  | nil => simp [fsSet, fsGet, h]
  | cons p rest ih =>
      obtain ⟨n0, d⟩ := p
      by_cases h0 : n0 = n
      · subst h0
        simp [fsSet, fsGet, h]
      · simp [fsSet, fsGet, h0, ih]

/-- The primary and backup files of a key are distinct. -/
theorem stateFileName_ne_backupFileName (k : Str) :
    stateFileName k ≠ backupFileName k := by
  intro h
  have hlen := congrArg List.length h
  simp [stateFileName, backupFileName] at hlen

/-- C5: starting from a state directory in which the key is absent,
`write_state_with_backup(k, v1)` followed by `write_state_with_backup(k,
v2)` leaves `read_state(k)` returning `v2` and the `.json.backup`
sibling parsing directly to `v1`. -/
theorem state_durability (fs : FileSys) (k : Str) (v1 v2 : JsonVal)
    (h : fsGet fs (stateFileName k) = none) :
    read_state (write_state_with_backup
      (write_state_with_backup fs k v1) k v2) k = some (.ok v2) ∧
    (fsGet (write_state_with_backup
      (write_state_with_backup fs k v1) k v2)
      (backupFileName k)).map loads = some (.ok v1) := by
  have hne := stateFileName_ne_backupFileName k
  have h1 : write_state_with_backup fs k v1 =
      fsSet fs (stateFileName k) (dumps v1) := by
    simp only [write_state_with_backup, h, write_state]
  have hget1 : fsGet (write_state_with_backup fs k v1) (stateFileName k) =
      some (dumps v1) := by
    rw [h1]
    exact fsGet_fsSet_self fs (stateFileName k) (dumps v1)
  have h2 : write_state_with_backup
      (write_state_with_backup fs k v1) k v2 =
      fsSet (fsSet (fsSet fs (stateFileName k) (dumps v1))
        (backupFileName k) (dumps v1)) (stateFileName k) (dumps v2) := by
    conv_lhs => rw [h1]
    simp only [write_state_with_backup, write_state, fsGet_fsSet_self]
  constructor
  · rw [read_state, h2, fsGet_fsSet_self]
    simp [loads_dumps]
  · rw [h2, fsGet_fsSet_ne _ _ _ _ hne,
      fsGet_fsSet_self]
    simp [loads_dumps]

/-- C5 witness: two backed-up writes of `1` then `2` under key `s` in an
empty directory. -/
theorem state_durability_witness :
    fsGet [] (stateFileName ['s']) = none ∧
    (read_state (write_state_with_backup
      (write_state_with_backup [] ['s'] (.num 1)) ['s'] (.num 2)) ['s'] =
        some (.ok (.num 2)) ∧
    (fsGet (write_state_with_backup
      (write_state_with_backup [] ['s'] (.num 1)) ['s'] (.num 2))
      (backupFileName ['s'])).map loads = some (.ok (.num 1))) :=
  ⟨rfl, state_durability [] ['s'] (.num 1) (.num 2) rfl⟩

/-- A successful retry loop found some leading line count that parses. -/
theorem tryFrom_some (lines : List Str) :
    ∀ n v, tryFrom lines n = some v →
      ∃ i, loads (joinNL (lines.take i)) = .ok v := by
  intro n
  induction n with
  | zero =>
      intro v h
      exact absurd h (by simp [tryFrom])
  | succ m ih =>
      intro v h
      simp only [tryFrom] at h
      rcases he : loads (joinNL (lines.take (m + 1))) with e | w
      · rw [he] at h
        exact ih v h
      · rw [he] at h
        exact ⟨m + 1, by rw [he, Option.some.inj h]⟩

/-- C3 amended: whenever recovery returns a value, the primary file
exists and the value is the parse of the primary content, the parse of
the backup sibling, or the parse of some leading lines of the primary
content; recovery itself is total. -/
theorem recover_result_characterization (fs : FileSys) (k : Str)
    (v : JsonVal) (h : recover_from_error fs k = some v) :
    ∃ text, fsGet fs (stateFileName k) = some text ∧
      (loads text = .ok v ∨
       (∃ btext, fsGet fs (backupFileName k) = some btext ∧
         loads btext = .ok v) ∨
       (∃ i, loads (joinNL ((pySplitlines text).take i)) = .ok v)) := by
  unfold recover_from_error at h
  rcases hp : fsGet fs (stateFileName k) with _ | text
  · rw [hp] at h
    exact absurd h (by simp)
  · rw [hp] at h
    dsimp only at h
    refine ⟨text, rfl, ?_⟩
    rcases hl : loads text with e | w
    · rw [hl] at h
      dsimp only at h
      rcases hb : fsGet fs (backupFileName k) with _ | btext
      · rw [hb] at h
        exact Or.inr (Or.inr (tryFrom_some _ _ v h))
      · rw [hb] at h
        dsimp only at h
        rcases hlb : loads btext with e2 | w2
        · rw [hlb] at h
          exact Or.inr (Or.inr (tryFrom_some _ _ v h))
        · rw [hlb] at h
          dsimp only at h
          exact Or.inr (Or.inl ⟨btext, rfl,
            by rw [hlb, Option.some.inj h]⟩)
    · rw [hl] at h
      dsimp only at h
      exact Or.inl (congrArg Except.ok (Option.some.inj h))

/-- C3 amended witness: an intact primary file recovers to its own
parse. -/
theorem recover_result_characterization_witness :
    recover_from_error [(stateFileName ['s'], dumps (.num 5))] ['s'] =
      some (.num 5) ∧
    (∃ text, fsGet [(stateFileName ['s'], dumps (.num 5))]
        (stateFileName ['s']) = some text ∧
      (loads text = .ok (.num 5) ∨
       (∃ btext, fsGet [(stateFileName ['s'], dumps (.num 5))]
           (backupFileName ['s']) = some btext ∧
         loads btext = .ok (.num 5)) ∨
       (∃ i, loads (joinNL ((pySplitlines text).take i)) =
         .ok (.num 5)))) :=
  ⟨by decide, recover_result_characterization _ _ _ (by decide)⟩

/-- C3 counterexample: the file under key `s` held `123`; truncating it
to two bytes makes recovery return `12`, which is the parse of no
leading line sequence of the original content. -/
theorem truncated_state_parses_to_foreign_value :
    loads (dumps (.num 123)) = .ok (.num 123) ∧
    recover_from_error [(stateFileName ['s'],
      (dumps (.num 123)).take 2)] ['s'] = some (.num 12) ∧
    ∀ i, loads (joinNL ((pySplitlines (dumps (.num 123))).take i)) ≠
      .ok (.num 12) := by
  refine ⟨by decide, by decide, ?_⟩
  intro i
  match i with
  | 0 => decide
  | j + 1 =>
      rw [List.take_of_length_le (le_trans (le_of_eq (by decide :
        (pySplitlines (dumps (.num 123))).length = 1)) (by omega))]
      decide

end T2D
